import Mathlib

/-!
Verification of the core of the `ecs-rs` entity-component-system library.

The development shallowly embeds the Rust sources:
  * `src/entity.rs`    : `IndexPool`, `EntityManager` (entity identity, index recycling)
  * `src/aspect.rs`    : `Aspect` and `Aspect::check`
  * `src/system/entitysystem.rs` : the `EntitySystem` interest tracker and its
    `activated` / `reactivated` / `deactivated` notification handlers
  * `src/buffer.rs`    : the type-erased byte `Buffer` with its stride checks
  * `src/world.rs`     : `World` with its deferred build/modify/remove queues and
    `World::update`

Rust `HashMap`s are modelled as functions into `Option`, `Vec` stacks as Lean
lists (push = cons, pop = head; the LIFO behaviour is identical), and fallible
code (calls to the repository's diverging `error` helper, `fail!`) as
`Except String`.  Machine integers (`u64`, `usize`) are modelled as `Nat`;
none of the verified operations can overflow in a way the claims depend on.
-/

namespace Ecs

/-- Component type identifier (the Rust `ComponentId` / `TypeId`). -/
abbrev ComponentId := Nat

/-- Component value; components are opaque data, modelled as a natural number. -/
abbrev Value := Nat

/-- An entity is its unique identifier, as in `src/entity.rs`:
`pub struct Entity(Id)` with `type Id = u64`.  The slot index lives in the
entity manager's `Entity -> IndexedEntity` mapping. -/
abbrev Entity := Nat

/-! ## Index allocator (`IndexPool`, src/entity.rs lines 184-222) -/

/-- The index recycling pool: `recycled` is the free list (a `Vec` used as a
stack: push/pop at one end), `next_index` the next fresh slot. -/
structure IndexPool where
  recycled : List Nat
  next_index : Nat
deriving Repr, DecidableEq

namespace IndexPool

/-- Source: `IndexPool::new`. -/
def new : IndexPool := { recycled := [], next_index := 0 }

/-- Source: `IndexPool::count` = `next_index - recycled.len()`. -/
def count (p : IndexPool) : Nat := p.next_index - p.recycled.length

/-- Source: `IndexPool::get_index`: pop the free list if non-empty, otherwise
issue `next_index` and increment it.  Returns the index and the new pool. -/
def get_index (p : IndexPool) : Nat × IndexPool :=
  match p.recycled with
  | id :: rest => (id, { p with recycled := rest })
  | [] => (p.next_index, { p with next_index := p.next_index + 1 })

/-- Source: `IndexPool::return_id`: push a freed index onto the free list. -/
def return_id (p : IndexPool) (id : Nat) : IndexPool :=
  { p with recycled := id :: p.recycled }

end IndexPool

/-! ## Entity manager (`EntityManager`, src/entity.rs lines 124-182) -/

/-- The entity manager owns the index pool, the `Entity -> IndexedEntity`
map (modelled as a function to the slot index; the `IndexedEntity` also
stores the entity itself, which is the key and hence redundant), and the
unique-id counter. -/
structure EntityManager where
  indices : IndexPool
  entities : Entity → Option Nat
  next_id : Nat

namespace EntityManager

/-- Source: `EntityManager::new`. -/
def new : EntityManager :=
  { indices := IndexPool.new, entities := fun _ => none, next_id := 0 }

/-- Source: `EntityManager::create`: increment `next_id`, mint the entity,
insert it into the map bound to a freshly allocated slot index. -/
def create (m : EntityManager) : Entity × EntityManager :=
  let e : Entity := m.next_id + 1
  let (idx, pool) := m.indices.get_index
  (e, { indices := pool
        entities := fun x => if x = e then some idx else m.entities x
        next_id := m.next_id + 1 })

/-- Source: `EntityManager::is_valid` = `entities.contains_key(entity)`. -/
def is_valid (m : EntityManager) (e : Entity) : Bool :=
  (m.entities e).isSome

/-- Source: `EntityManager::remove`: drop the map entry and, if one was
present, return its slot index to the pool. -/
def remove (m : EntityManager) (e : Entity) : EntityManager :=
  match m.entities e with
  | some idx =>
      { m with entities := fun x => if x = e then none else m.entities x
               indices := m.indices.return_id idx }
  | none => m

/-- The slot index the manager associates to an entity (`indexed(e).index()`). -/
def indexOf (m : EntityManager) (e : Entity) : Option Nat := m.entities e

end EntityManager

/-! ## Aspect (src/aspect.rs) -/

/-- An aspect: three component-id requirement lists, as in `src/aspect.rs`. -/
structure Aspect where
  all : List ComponentId
  any : List ComponentId
  none : List ComponentId
deriving Repr, DecidableEq

namespace Aspect

/-- Source: `Aspect::nil` - the empty aspect. -/
def nil : Aspect := { all := [], any := [], none := [] }

/-- Source: `Aspect::for_all`. -/
def for_all (vec : List ComponentId) : Aspect := { all := vec, any := [], none := [] }

/-- Source: `Aspect::for_any`. -/
def for_any (vec : List ComponentId) : Aspect := { all := [], any := vec, none := [] }

/-- Source: `Aspect::for_none`. -/
def for_none (vec : List ComponentId) : Aspect := { all := [], any := [], none := vec }

/-- Source: `Aspect::check`.  The `world.has_component(entity, id)` oracle is
abstracted into the function `has` (the check is evaluated for one fixed
entity; `has id` is `world.has_component(entity, id)`). -/
def check (a : Aspect) (has : ComponentId → Bool) : Bool :=
  (a.all.isEmpty || a.all.all has)
  && !(a.none.any has)
  && (a.any.isEmpty || a.any.any has)

end Aspect

/-! ## The interest tracker (`EntitySystem`, src/system/entitysystem.rs)

The tracker is modelled standalone: `interested` is the cached entity set
(`TrieMap<Entity>` keyed by the entity, i.e. a set), `aspect` the filter, and
the wrapped inner process's hook invocations are returned explicitly as a
list of `Hook` events so that claims about which hooks fire can be stated. -/

/-- A call of one of the inner process's lifecycle hooks. -/
inductive Hook where
  | activated (e : Entity)
  | reactivated (e : Entity)
  | deactivated (e : Entity)
deriving Repr, DecidableEq

/-- Insert an entity into the interested set (idempotent, as for a map keyed
by the entity itself). -/
def insertE (e : Entity) (l : List Entity) : List Entity :=
  if e ∈ l then l else e :: l

/-- Remove an entity from the interested set. -/
def removeE (e : Entity) (l : List Entity) : List Entity :=
  l.filter (fun x => x ≠ e)

/-- The interest-tracking state of an `EntitySystem`. -/
structure EntitySystem where
  interested : List Entity
  aspect : Aspect
deriving Repr, DecidableEq

namespace EntitySystem

/-- Source: `EntitySystem::new` with the given aspect. -/
def new (aspect : Aspect) : EntitySystem := { interested := [], aspect := aspect }

/-- Core of `EntitySystem::activated` once `aspect.check(entity, world)` has
been evaluated to `c`: if the check holds, insert the entity and call the
inner process's `activated` hook. -/
def activatedWith (s : EntitySystem) (e : Entity) (c : Bool) :
    EntitySystem × List Hook :=
  if c then ({ s with interested := insertE e s.interested }, [Hook.activated e])
  else (s, [])

/-- Source: `EntitySystem::activated` (src/system/entitysystem.rs lines
194-201), with the world's `has_component` oracle abstracted as `has`. -/
def activated (s : EntitySystem) (e : Entity) (has : Entity → ComponentId → Bool) :
    EntitySystem × List Hook :=
  s.activatedWith e (s.aspect.check (has e))

/-- Core of `EntitySystem::reactivated` once the aspect check has been
evaluated to `c`. -/
def reactivatedWith (s : EntitySystem) (e : Entity) (c : Bool) :
    EntitySystem × List Hook :=
  if e ∈ s.interested then
    if c then (s, [Hook.reactivated e])
    else ({ s with interested := removeE e s.interested }, [Hook.deactivated e])
  else if c then ({ s with interested := insertE e s.interested }, [Hook.activated e])
  else (s, [])

/-- Source: `EntitySystem::reactivated` (src/system/entitysystem.rs lines
203-222). -/
def reactivated (s : EntitySystem) (e : Entity) (has : Entity → ComponentId → Bool) :
    EntitySystem × List Hook :=
  s.reactivatedWith e (s.aspect.check (has e))

/-- Source: `EntitySystem::deactivated` (src/system/entitysystem.rs lines
224-230): remove the entity; only if it was present, call the inner
`deactivated` hook.  Needs no aspect check. -/
def deactivatedT (s : EntitySystem) (e : Entity) : EntitySystem × List Hook :=
  if e ∈ s.interested then
    ({ s with interested := removeE e s.interested }, [Hook.deactivated e])
  else (s, [])

end EntitySystem

/-- The default `reactivated` of an inner process (`System::reactivated`,
src/system/mod.rs lines 40-44, and `EntityProcess::reactivated`,
src/system/entitysystem.rs lines 31-35) expands a `reactivated` call into
`deactivated` followed by `activated`; the hooks a non-overriding inner
system actually observes are this expansion of the tracker's calls. -/
def expandDefault : List Hook → List Hook
  | [] => []
  | Hook.reactivated e :: rest => Hook.deactivated e :: Hook.activated e :: expandDefault rest
  | h :: rest => h :: expandDefault rest

/-! ## Type-erased component buffer (src/buffer.rs)

A Rust type is modelled by its identity `tid` together with `mem::size_of`,
and a value of that type by its byte representation (a list of `size`
bytes).  The buffer stores raw bytes with a fixed `stride`; the source's
`fail!("Type has invalid size for buffer")` guard is the `Except.error`
branch, and a successful read hands back the raw byte slice that Rust's
`mem::transmute` would reinterpret as the requested type. -/

/-- A (monomorphised) Rust type parameter `T`: its type identity and size. -/
structure RustType where
  tid : Nat
  size : Nat
deriving Repr, DecidableEq

/-- The byte buffer of src/buffer.rs. -/
structure Buffer where
  bytes : List Nat
  stride : Nat
deriving Repr, DecidableEq

namespace Buffer

/-- Source: `Buffer::new`. -/
def new (stride : Nat) : Buffer := { bytes := [], stride := stride }

/-- The source's grow loop in `Buffer::set`:
`while offset + stride > bytes.len() { bytes.grow(stride, 0u8) }`.
At the only call site `target = stride * index + stride`, so a zero stride
makes the condition false immediately; the `0 < stride` guard reproduces
that termination behaviour. -/
def growLoop (bytes : List Nat) (stride target : Nat) : List Nat :=
  if h : bytes.length < target ∧ 0 < stride then
    growLoop (bytes ++ List.replicate stride 0) stride target
  else bytes
termination_by target - bytes.length
decreasing_by
  simp only [List.length_append, List.length_replicate]
  omega

/-- Source: `Buffer::set` (src/buffer.rs lines 30-49).  `val` is the byte
representation of the value of type `t` being stored. -/
def set (b : Buffer) (t : RustType) (index : Nat) (val : List Nat) :
    Except String Buffer :=
  if t.size ≠ b.stride then Except.error "Type has invalid size for buffer"
  else
    let offset := b.stride * index
    let grown := growLoop b.bytes b.stride (offset + b.stride)
    Except.ok { b with
      bytes := grown.take offset ++ val.take b.stride ++ grown.drop (offset + b.stride) }

/-- Source: `Buffer::get` (src/buffer.rs lines 51-72).  A successful in-range
read returns the raw stored bytes, which the caller transmutes into `t`. -/
def get (b : Buffer) (t : RustType) (index : Nat) :
    Except String (Option (List Nat)) :=
  if t.size ≠ b.stride then Except.error "Type has invalid size for buffer"
  else
    let offset := b.stride * index
    if b.bytes.length ≤ offset then Except.ok none
    else Except.ok (some ((b.bytes.drop offset).take b.stride))

/-- Source: `Buffer::borrow` (src/buffer.rs lines 74-95): identical stride
check and addressing; returns a view of the same bytes. -/
def borrow (b : Buffer) (t : RustType) (index : Nat) :
    Except String (Option (List Nat)) :=
  if t.size ≠ b.stride then Except.error "Type has invalid size for buffer"
  else
    let offset := b.stride * index
    if b.bytes.length ≤ offset then Except.ok none
    else Except.ok (some ((b.bytes.drop offset).take b.stride))

/-- Source: `Buffer::borrow_mut` (src/buffer.rs lines 97-118). -/
def borrow_mut (b : Buffer) (t : RustType) (index : Nat) :
    Except String (Option (List Nat)) :=
  if t.size ≠ b.stride then Except.error "Type has invalid size for buffer"
  else
    let offset := b.stride * index
    if b.bytes.length ≤ offset then Except.ok none
    else Except.ok (some ((b.bytes.drop offset).take b.stride))

end Buffer

/-- Whether an `Except` computation failed (the Rust call panicked). -/
def isError {ε α : Type} : Except ε α → Prop
  | Except.error _ => True
  | Except.ok _ => False

instance {ε α : Type} (x : Except ε α) : Decidable (isError x) := by
  cases x <;> simp [isError] <;> infer_instance

/-! ## The world (src/world.rs)

The world owns the deferred build/modify/remove queues (`Vec`s drained in
FIFO order), the entity manager, the component storages, and the registered
systems.

`ComponentManager.components : HashMap<ComponentId, RefCell<ComponentList>>`
is modelled as `Store`: a function from component ids to `Option` of a
per-slot map; `none` means the component type was never registered.  The
per-type `ComponentList` (whose world-era source file is not part of this
snapshot; the surviving `src/component.rs` keys every operation by the
entity's slot index) is modelled as a function from slot index to an
optional stored value.

Builders and modifiers (`Box<EntityBuilder>` / `Box<EntityModifier>`
closures in the source) are modelled as data: a list of add/remove commands
applied to the target entity's own slot, following the spec's description
of the build step (the builder is invoked against the component storages
for that entity's slot) and its design note that deferred mutation should
be read as data-only command records.

The repository's `error` helper (its defining module is not part of this
snapshot; `use error;` in src/world.rs) is used in expression position
(e.g. in `ComponentManager::get`) and so must diverge; following the spec's
error-handling design (invalid-handle and configuration errors fail fast
with crash semantics) it is modelled as `Except.error`.  The one exception
is `World::remove_entity`, whose own doc comment states that for an invalid
entity a warning is issued and the method does nothing; that call site is
modelled as a no-op. -/

/-- One command of a builder/modifier, applied to the target entity's slot. -/
inductive BuildCmd where
  | addc (cid : ComponentId) (v : Value)
  | removec (cid : ComponentId)
deriving Repr, DecidableEq

/-- A builder or modifier: commands run in order against the entity's slot. -/
abbrev Builder := List BuildCmd

/-- The component storages: component id to per-slot storage, `none` if the
component type is unregistered. -/
abbrev Store := ComponentId → Option (Nat → Option Value)

namespace Store

/-- Applying one builder command at a slot: `Components::add` / `set`
inserts-or-replaces, `Components::remove` erases; both call the diverging
`error` helper when the component type is unregistered
(`ComponentManager::add` / `set` / `remove`, src/world.rs lines 455-471 and
520-527). -/
def applyCmd (slot : Nat) (st : Store) : BuildCmd → Except String Store
  | BuildCmd.addc cid v =>
      match st cid with
      | Option.none => Except.error "Attempted to add an unregistered component"
      | some f =>
          Except.ok (fun c =>
            if c = cid then some (fun sl => if sl = slot then some v else f sl) else st c)
  | BuildCmd.removec cid =>
      match st cid with
      | Option.none => Except.error "Attempted to remove an unregistered component"
      | some f =>
          Except.ok (fun c =>
            if c = cid then some (fun sl => if sl = slot then Option.none else f sl) else st c)

/-- Run a builder against the storages for a fixed slot, in command order. -/
def applyBuilder : Builder → Nat → Store → Except String Store
  | [], _, st => Except.ok st
  | cmd :: rest, slot, st =>
      match applyCmd slot st cmd with
      | Except.error e => Except.error e
      | Except.ok st' => applyBuilder rest slot st'

/-- Existence check for one component id at one slot
(`ComponentManager::has`, src/world.rs lines 491-498): the diverging
`error` on an unregistered id, otherwise the existence bit. -/
def hasAt (st : Store) (cid : ComponentId) (slot : Nat) : Except String Bool :=
  match st cid with
  | Option.none => Except.error "Attempted to access an unregistered component"
  | some f => Except.ok (f slot).isSome

/-- Purging one slot from every registered storage
(`ComponentManager::delete_entity`, src/world.rs lines 447-453). -/
def purgeSlot (st : Store) (slot : Nat) : Store :=
  fun cid => (st cid).map (fun f => fun sl => if sl = slot then Option.none else f sl)

/-- The view of a store at one slot: registration status and the stored
entry, which is everything `hasAt` and aspect checks can observe there. -/
def viewAt (st : Store) (slot : Nat) (cid : ComponentId) : Option (Option Value) :=
  (st cid).map (fun f => f slot)

end Store

/-- Sequential conjunction of `world.has_component` over a list of component
ids, mirroring `self.all.iter().all(..)` in `Aspect::check`: ids are queried
left to right and a `false` stops the iteration (so a later unregistered id
is not queried). -/
def allHasAt (st : Store) (slot : Nat) : List ComponentId → Except String Bool
  | [] => Except.ok true
  | c :: cs =>
      match st.hasAt c slot with
      | Except.error e => Except.error e
      | Except.ok b => if b then allHasAt st slot cs else Except.ok false

/-- Sequential disjunction, mirroring `iter().any(..)`: a `true` stops the
iteration. -/
def anyHasAt (st : Store) (slot : Nat) : List ComponentId → Except String Bool
  | [] => Except.ok false
  | c :: cs =>
      match st.hasAt c slot with
      | Except.error e => Except.error e
      | Except.ok b => if b then Except.ok true else anyHasAt st slot cs

/-- `Aspect::check(entity, world)` evaluated against the storages at the
entity's slot, with the source's `&&`/`||` short-circuit order: the `all`
clause first (skipped if the list is empty), then the `none` clause, then
the `any` clause; a clause that already decides the result prevents the
later clauses from being evaluated. -/
def checkAspectAt (st : Store) (a : Aspect) (slot : Nat) : Except String Bool :=
  match (if a.all.isEmpty then Except.ok true else allHasAt st slot a.all) with
  | Except.error e => Except.error e
  | Except.ok c₁ =>
      if !c₁ then Except.ok false
      else
        match anyHasAt st slot a.none with
        | Except.error e => Except.error e
        | Except.ok c₂ =>
            if c₂ then Except.ok false
            else if a.any.isEmpty then Except.ok true else anyHasAt st slot a.any

/-- The world: deferred queues, entity manager, component storages and
registered (active entity-)systems, as in `struct World` (src/world.rs
lines 17-26).  Passive systems and managers are further observers of the
same notifications and are not modelled. -/
structure World where
  build_queue : List (Entity × Builder)
  modify_queue : List (Entity × Builder)
  remove_queue : List Entity
  entities : EntityManager
  components : Store
  systems : List EntitySystem

namespace World

/-- A freshly built world (`WorldBuilder::new` followed by
`register_component` for every id with `reg id = true` and
`register_system` for every aspect, then `build`). -/
def new (reg : ComponentId → Bool) (aspects : List Aspect) : World :=
  { build_queue := []
    modify_queue := []
    remove_queue := []
    entities := EntityManager.new
    components := fun cid => if reg cid then some (fun _ => Option.none) else Option.none
    systems := aspects.map EntitySystem.new }

/-- Source: `World::is_valid` (src/world.rs lines 59-65). -/
def is_valid (w : World) (e : Entity) : Bool := w.entities.is_valid e

/-- Source: `World::has_component` (src/world.rs lines 302-306).  The
entity's slot is resolved through the manager; an entity absent from the
manager is reported as having no components (the verified flows only query
valid entities). -/
def has_component (w : World) (e : Entity) (cid : ComponentId) : Except String Bool :=
  match w.components cid with
  | Option.none => Except.error "Attempted to access an unregistered component"
  | some f =>
      Except.ok (match w.entities.entities e with
        | some slot => (f slot).isSome
        | Option.none => false)

/-- Source: `World::try_component` (src/world.rs lines 253-266): the
diverging `error` for an invalid entity, otherwise the soft `try_get`. -/
def try_component (w : World) (e : Entity) (cid : ComponentId) :
    Except String (Option Value) :=
  match w.entities.entities e with
  | some slot =>
      (match w.components cid with
       | Option.none => Except.error "Attempted to access an unregistered component"
       | some f => Except.ok (f slot))
  | Option.none => Except.error "Cannot get component for invalid entity"

/-- Delivering the activation notification to every registered system in
order (`SystemManager::activated`, src/world.rs lines 387-397): each
tracker evaluates its aspect against the current storages and runs
`EntitySystem::activated`. -/
def activateSystems (comps : Store) (slot : Nat) (e : Entity) :
    List EntitySystem → Except String (List EntitySystem)
  | [] => Except.ok []
  | t :: ts =>
      match checkAspectAt comps t.aspect slot with
      | Except.error err => Except.error err
      | Except.ok c =>
          match activateSystems comps slot e ts with
          | Except.error err => Except.error err
          | Except.ok rest => Except.ok ((t.activatedWith e c).1 :: rest)

/-- Delivering the reactivation notification to every registered system
(`SystemManager::reactivated`, src/world.rs lines 399-409). -/
def reactivateSystems (comps : Store) (slot : Nat) (e : Entity) :
    List EntitySystem → Except String (List EntitySystem)
  | [] => Except.ok []
  | t :: ts =>
      match checkAspectAt comps t.aspect slot with
      | Except.error err => Except.error err
      | Except.ok c =>
          match reactivateSystems comps slot e ts with
          | Except.error err => Except.error err
          | Except.ok rest => Except.ok ((t.reactivatedWith e c).1 :: rest)

/-- Source: `World::activate_entity` (src/world.rs lines 308-315). -/
def activate_entity (w : World) (e : Entity) : Except String World :=
  match w.entities.entities e with
  | Option.none => Except.error "entity not registered with the manager"
  | some slot =>
      match activateSystems w.components slot e w.systems with
      | Except.error err => Except.error err
      | Except.ok systems => Except.ok { w with systems := systems }

/-- Source: `World::reactivate_entity` (src/world.rs lines 317-324). -/
def reactivate_entity (w : World) (e : Entity) : Except String World :=
  match w.entities.entities e with
  | Option.none => Except.error "entity not registered with the manager"
  | some slot =>
      match reactivateSystems w.components slot e w.systems with
      | Except.error err => Except.error err
      | Except.ok systems => Except.ok { w with systems := systems }

/-- Source: `World::remove_entity` (src/world.rs lines 157-173): if the
entity is valid, deactivate it with every system, purge its slot from every
storage, then delete it from the manager; otherwise (per the method's doc
comment) issue a warning and do nothing. -/
def remove_entity (w : World) (e : Entity) : World :=
  match w.entities.entities e with
  | some slot =>
      { w with
        systems := w.systems.map (fun t => (t.deactivatedT e).1)
        components := w.components.purgeSlot slot
        entities := w.entities.remove e }
  | Option.none => w

/-- Source: `World::build_entity` (src/world.rs lines 138-145): create the
entity, run the builder against its slot, then activate it. -/
def build_entity (w : World) (b : Builder) : Except String (Entity × World) :=
  let (e, em) := w.entities.create
  match em.entities e with
  | Option.none => Except.error "entity not registered with the manager"
  | some slot =>
      match Store.applyBuilder b slot w.components with
      | Except.error err => Except.error err
      | Except.ok comps =>
          match activate_entity { w with entities := em, components := comps } e with
          | Except.error err => Except.error err
          | Except.ok w' => Except.ok (e, w')

/-- Source: `World::queue_builder` (src/world.rs lines 176-181): create the
entity immediately, push the builder onto the build queue, return the
entity. -/
def queue_builder (w : World) (b : Builder) : Entity × World :=
  let (e, em) := w.entities.create
  (e, { w with entities := em, build_queue := w.build_queue ++ [(e, b)] })

/-- Source: `World::queue_modifier` (src/world.rs lines 184-187). -/
def queue_modifier (w : World) (e : Entity) (m : Builder) : World :=
  { w with modify_queue := w.modify_queue ++ [(e, m)] }

/-- Source: `World::queue_removal` (src/world.rs lines 190-193). -/
def queue_removal (w : World) (e : Entity) : World :=
  { w with remove_queue := w.remove_queue ++ [e] }

end World

/-- A deferred-mutation request a system issues during its process step
(through `EntityData::build_entity` / `modify_entity` / `remove_entity`,
which forward to the world's queueing methods). -/
inductive Request where
  | build (b : Builder)
  | modify (e : Entity) (m : Builder)
  | remove (e : Entity)

namespace World

/-- The effect of one request issued during the process step. -/
def processStep (w : World) : Request → World
  | Request.build b => (w.queue_builder b).2
  | Request.modify e m => w.queue_modifier e m
  | Request.remove e => w.queue_removal e

/-- The process step of `World::update`: every system runs against the
committed state; its only effect on the world is the requests it enqueues
(in order). -/
def processPhase (w : World) (reqs : List Request) : World :=
  reqs.foldl processStep w

/-- The build-queue drain loop of `World::update` (src/world.rs lines
96-109): for each entry in FIFO order, if the entity is valid run its
builder and activate it, else the diverging `error`. -/
def drainBuild : World → List (Entity × Builder) → Except String World
  | w, [] => Except.ok w
  | w, (e, b) :: rest =>
      match w.entities.entities e with
      | some slot =>
          match Store.applyBuilder b slot w.components with
          | Except.error err => Except.error err
          | Except.ok comps =>
              match activate_entity { w with components := comps } e with
              | Except.error err => Except.error err
              | Except.ok w' => drainBuild w' rest
      | Option.none => Except.error "Could not build invalid entity"

/-- The modify-queue drain loop of `World::update` (src/world.rs lines
110-123). -/
def drainModify : World → List (Entity × Builder) → Except String World
  | w, [] => Except.ok w
  | w, (e, m) :: rest =>
      match w.entities.entities e with
      | some slot =>
          match Store.applyBuilder m slot w.components with
          | Except.error err => Except.error err
          | Except.ok comps =>
              match reactivate_entity { w with components := comps } e with
              | Except.error err => Except.error err
              | Except.ok w' => drainModify w' rest
      | Option.none => Except.error "Could not modify invalid entity"

/-- The remove-queue drain loop of `World::update` (src/world.rs lines
124-129): `remove_entity` on each entry in FIFO order. -/
def drainRemove : World → List Entity → World
  | w, [] => w
  | w, e :: rest => drainRemove (w.remove_entity e) rest

/-- Source: `World::update` (src/world.rs lines 93-130): the process step,
then `mem::swap` the build queue out and drain it, then the modify queue,
then the remove queue. -/
def update (w : World) (reqs : List Request) : Except String World :=
  let w0 := processPhase w reqs
  match drainBuild { w0 with build_queue := [] } w0.build_queue with
  | Except.error err => Except.error err
  | Except.ok w1 =>
      match drainModify { w1 with modify_queue := [] } w1.modify_queue with
      | Except.error err => Except.error err
      | Except.ok w2 =>
          Except.ok (drainRemove { w2 with remove_queue := [] } w2.remove_queue)

end World

/-- The world states reachable by the public per-cycle operations:
`build_entity`, `queue_builder`, `queue_modifier`, `queue_removal` and
`update` (with arbitrary requests enqueued by systems during each update's
process step), starting from any freshly registered world. -/
inductive Reachable : World → Prop where
  | init (reg : ComponentId → Bool) (aspects : List Aspect) :
      Reachable (World.new reg aspects)
  | step_build {w : World} (b : Builder) {e : Entity} {w' : World} :
      Reachable w → w.build_entity b = Except.ok (e, w') → Reachable w'
  | step_queue_builder {w : World} (b : Builder) :
      Reachable w → Reachable (w.queue_builder b).2
  | step_queue_modifier {w : World} (e : Entity) (m : Builder) :
      Reachable w → Reachable (w.queue_modifier e m)
  | step_queue_removal {w : World} (e : Entity) :
      Reachable w → Reachable (w.queue_removal e)
  | step_update {w : World} (reqs : List Request) {w' : World} :
      Reachable w → w.update reqs = Except.ok w' → Reachable w'

/-! ## Spec-side phrasing of the update cycle

Modelled from the spec: section 4.5 describes one update cycle as four
phases - run the process steps, then drain the Build queue in FIFO order
(each entry: invoke the builder for that entity's slot, then issue the
activation check to every tracker), then the Modify queue (reactivation
check), then the Remove queue.  These definitions state that pipeline
directly as folds over the queues, to be compared with the transcribed
`World.update`. -/

namespace World

/-- Spec phrasing of applying one Build entry: invoke the builder against
the entity's slot, then issue the activation check to every tracker. -/
def applyBuildEntry (w : World) (p : Entity × Builder) : Except String World :=
  match w.entities.entities p.1 with
  | some slot =>
      match Store.applyBuilder p.2 slot w.components with
      | Except.error err => Except.error err
      | Except.ok comps => activate_entity { w with components := comps } p.1
  | Option.none => Except.error "Could not build invalid entity"

/-- Spec phrasing of applying one Modify entry: invoke the modifier, then
issue the reactivation check to every tracker. -/
def applyModifyEntry (w : World) (p : Entity × Builder) : Except String World :=
  match w.entities.entities p.1 with
  | some slot =>
      match Store.applyBuilder p.2 slot w.components with
      | Except.error err => Except.error err
      | Except.ok comps => reactivate_entity { w with components := comps } p.1
  | Option.none => Except.error "Could not modify invalid entity"

/-- Spec phrasing of one whole update cycle: process step first (only
enqueueing), then the three queues drained category by category, each in
FIFO (left fold) order, with each queue swapped out before its drain. -/
def specUpdate (w : World) (reqs : List Request) : Except String World :=
  let w0 := processPhase w reqs
  match w0.build_queue.foldlM applyBuildEntry { w0 with build_queue := [] } with
  | Except.error err => Except.error err
  | Except.ok w1 =>
      match w1.modify_queue.foldlM applyModifyEntry { w1 with modify_queue := [] } with
      | Except.error err => Except.error err
      | Except.ok w2 =>
          Except.ok (w2.remove_queue.foldl remove_entity { w2 with remove_queue := [] })

end World

/-- A queue-only operation: one of the three deferred-request entry points,
none of which touches the component storages. -/
inductive QOp where
  | qbuild (b : Builder)
  | qmod (e : Entity) (m : Builder)
  | qrem (e : Entity)

/-- Apply one queue-only operation. -/
def applyQOp (w : World) : QOp → World
  | QOp.qbuild b => (w.queue_builder b).2
  | QOp.qmod e m => w.queue_modifier e m
  | QOp.qrem e => w.queue_removal e

/-- Apply a sequence of queue-only operations. -/
def applyQOps (w : World) (ops : List QOp) : World :=
  ops.foldl applyQOp w

/-! ## The reachability invariant

`WorldInv w pend` collects everything the interest-set argument needs,
relative to the list `pend` of build-queue entries whose builders have not
run yet (for a quiescent world, `pend` is the build queue itself; while the
build drain runs, it is the remaining part of the swapped-out queue):

* manager sanity: entity ids are bounded by the id counter, slot indices by
  the index counter, no two live entities share a slot, the free list is
  duplicate-free, in range and disjoint from live slots;
* storage purge: every stored entry sits at a slot owned by a live entity;
* pending entries: each pending entity is already valid, its slot holds no
  components yet, it is in no tracker's interested set, and no entity is
  pending twice;
* interest sync: for every tracker, every non-pending entity is in
  `interested` exactly when it is valid and the tracker's aspect check
  evaluates to `ok true` against the current storages. -/
/-- Manager sanity: the invariant on the entity manager alone. -/
structure EMInv (m : EntityManager) : Prop where
  ids_le : ∀ e s, m.entities e = some s → e ≤ m.next_id
  slots_lt : ∀ e s, m.entities e = some s → s < m.indices.next_index
  slots_inj : ∀ e₁ e₂ s, m.entities e₁ = some s → m.entities e₂ = some s → e₁ = e₂
  rec_lt : ∀ i ∈ m.indices.recycled, i < m.indices.next_index
  rec_free : ∀ i ∈ m.indices.recycled, ∀ e, m.entities e ≠ some i
  rec_nodup : m.indices.recycled.Nodup

/-- The full reachability invariant over a world and its pending build
entries, as described above; the manager part is `EMInv`. -/
structure WorldInv (w : World) (pend : List (Entity × Builder)) : Prop where
  em : EMInv w.entities
  store_owned : ∀ cid f s, w.components cid = some f → (f s).isSome →
      ∃ e, w.entities.entities e = some s
  pend_valid : ∀ p ∈ pend, (w.entities.entities p.1).isSome
  pend_empty : ∀ p ∈ pend, ∀ s, w.entities.entities p.1 = some s →
      ∀ cid f, w.components cid = some f → f s = Option.none
  pend_not_interested : ∀ p ∈ pend, ∀ t ∈ w.systems, p.1 ∉ t.interested
  pend_nodup : (pend.map Prod.fst).Nodup
  sync : ∀ t ∈ w.systems, ∀ e, (∀ p ∈ pend, p.1 ≠ e) →
      (e ∈ t.interested ↔
        ∃ s, w.entities.entities e = some s ∧
          checkAspectAt w.components t.aspect s = Except.ok true)

/-! ## Interest-set helper lemmas -/

theorem mem_insertE {x e : Entity} {l : List Entity} :
    x ∈ insertE e l ↔ x = e ∨ x ∈ l := by
  unfold insertE
  split
  · rename_i h
    constructor
    · exact Or.inr
    · rintro (rfl | hx)
      · exact h
      · exact hx
  · simp [List.mem_cons]

theorem mem_removeE {x e : Entity} {l : List Entity} :
    x ∈ removeE e l ↔ x ∈ l ∧ x ≠ e := by
  simp [removeE, List.mem_filter]

namespace EntitySystem

theorem aspect_activatedWith (s : EntitySystem) (e : Entity) (c : Bool) :
    ((s.activatedWith e c).1).aspect = s.aspect := by
  unfold activatedWith
  split <;> rfl

theorem mem_activatedWith {s : EntitySystem} {e x : Entity} {c : Bool} :
    x ∈ (s.activatedWith e c).1.interested ↔
      x ∈ s.interested ∨ (c = true ∧ x = e) := by
  unfold activatedWith
  split <;> rename_i hc <;> simp_all [mem_insertE]
  tauto

theorem aspect_reactivatedWith (s : EntitySystem) (e : Entity) (c : Bool) :
    ((s.reactivatedWith e c).1).aspect = s.aspect := by
  unfold reactivatedWith
  split <;> [skip; split] <;> first | (split <;> rfl) | rfl

theorem mem_reactivatedWith_ne {s : EntitySystem} {e x : Entity} {c : Bool}
    (hx : x ≠ e) :
    x ∈ (s.reactivatedWith e c).1.interested ↔ x ∈ s.interested := by
  unfold reactivatedWith
  split
  · split
    · rfl
    · simp [mem_removeE, hx]
  · split
    · simp [mem_insertE, hx]
    · rfl

theorem mem_reactivatedWith_self {s : EntitySystem} {e : Entity} {c : Bool} :
    e ∈ (s.reactivatedWith e c).1.interested ↔ c = true := by
  unfold reactivatedWith
  split <;> rename_i hmem
  · cases c <;> simp_all [mem_removeE]
  · cases c <;> simp_all [mem_insertE]

theorem aspect_deactivatedT (s : EntitySystem) (e : Entity) :
    ((s.deactivatedT e).1).aspect = s.aspect := by
  unfold deactivatedT
  split <;> rfl

theorem mem_deactivatedT {s : EntitySystem} {e x : Entity} :
    x ∈ (s.deactivatedT e).1.interested ↔ x ∈ s.interested ∧ x ≠ e := by
  unfold deactivatedT
  split <;> rename_i hmem
  · simp [mem_removeE]
  · constructor
    · intro hx
      refine ⟨hx, ?_⟩
      rintro rfl
      exact hmem hx
    · exact And.left

end EntitySystem

/-! ## Store helper lemmas -/

namespace Store

theorem viewAt_some_iff {st : Store} {sl : Nat} {c : ComponentId} {o : Option Value} :
    Store.viewAt st sl c = some o ↔ ∃ f, st c = some f ∧ f sl = o := by
  cases h : st c <;> simp [Store.viewAt, h]

theorem hasAt_congr {st st₂ : Store} {slot slot₂ : Nat} {cid : ComponentId}
    (h : Store.viewAt st slot cid = Store.viewAt st₂ slot₂ cid) :
    Store.hasAt st cid slot = Store.hasAt st₂ cid slot₂ := by
  unfold Store.viewAt at h
  unfold Store.hasAt
  cases h₁ : st cid <;> cases h₂ : st₂ cid <;> rw [h₁, h₂] at h <;> simp_all

theorem applyCmd_ok {slot : Nat} {st st' : Store} {cmd : BuildCmd}
    (h : Store.applyCmd slot st cmd = Except.ok st') :
    (∀ c, (st' c).isSome = (st c).isSome) ∧
    (∀ sl, sl ≠ slot → ∀ c, Store.viewAt st' sl c = Store.viewAt st sl c) := by
  cases cmd with
  | addc cid v =>
    cases h₁ : st cid with
    | none =>
      simp only [Store.applyCmd, h₁] at h
      exact absurd h (by simp)
    | some f =>
      simp only [Store.applyCmd, h₁] at h
      injection h with h'
      subst h'
      refine ⟨fun c => ?_, fun sl hsl c => ?_⟩
      · by_cases hc : c = cid <;> simp [hc, h₁]
      · by_cases hc : c = cid <;> simp [Store.viewAt, hc, h₁, hsl]
  | removec cid =>
    cases h₁ : st cid with
    | none =>
      simp only [Store.applyCmd, h₁] at h
      exact absurd h (by simp)
    | some f =>
      simp only [Store.applyCmd, h₁] at h
      injection h with h'
      subst h'
      refine ⟨fun c => ?_, fun sl hsl c => ?_⟩
      · by_cases hc : c = cid <;> simp [hc, h₁]
      · by_cases hc : c = cid <;> simp [Store.viewAt, hc, h₁, hsl]

theorem applyBuilder_ok : ∀ (b : Builder) (st st' : Store) (slot : Nat),
    Store.applyBuilder b slot st = Except.ok st' →
    (∀ c, (st' c).isSome = (st c).isSome) ∧
    (∀ sl, sl ≠ slot → ∀ c, Store.viewAt st' sl c = Store.viewAt st sl c) := by
  intro b
  induction b with
  | nil =>
    intro st st' slot h
    unfold Store.applyBuilder at h
    injection h with h
    subst h
    exact ⟨fun _ => rfl, fun _ _ _ => rfl⟩
  | cons cmd rest ih =>
    intro st st' slot h
    unfold Store.applyBuilder at h
    cases h₁ : Store.applyCmd slot st cmd with
    | error e => rw [h₁] at h; exact absurd h (by simp)
    | ok stm =>
      rw [h₁] at h
      obtain ⟨r₁, r₂⟩ := Store.applyCmd_ok h₁
      obtain ⟨s₁, s₂⟩ := ih stm st' slot h
      exact ⟨fun c => (s₁ c).trans (r₁ c),
             fun sl hsl c => (s₂ sl hsl c).trans (r₂ sl hsl c)⟩

theorem purgeSlot_isSome (st : Store) (slot : Nat) (c : ComponentId) :
    ((st.purgeSlot slot) c).isSome = (st c).isSome := by
  unfold Store.purgeSlot
  cases st c <;> rfl

theorem purgeSlot_view_ne {sl slot : Nat} (h : sl ≠ slot) (st : Store) (c : ComponentId) :
    Store.viewAt (st.purgeSlot slot) sl c = Store.viewAt st sl c := by
  unfold Store.purgeSlot Store.viewAt
  cases hc : st c <;> simp [hc, h]

theorem purgeSlot_at {st : Store} {slot : Nat} {c : ComponentId} {f' : Nat → Option Value}
    (h : (st.purgeSlot slot) c = some f') : f' slot = Option.none := by
  unfold Store.purgeSlot at h
  cases h₁ : st c with
  | none => rw [h₁] at h; exact absurd h (by simp)
  | some f =>
    rw [h₁] at h
    injection h with h'
    subst h'
    simp

end Store

theorem allHasAt_congr {st st₂ : Store} {slot slot₂ : Nat} :
    ∀ (cs : List ComponentId),
    (∀ c ∈ cs, Store.viewAt st slot c = Store.viewAt st₂ slot₂ c) →
    allHasAt st slot cs = allHasAt st₂ slot₂ cs := by
  intro cs
  induction cs with
  | nil => intro _; rfl
  | cons c cs ih =>
    intro h
    unfold allHasAt
    rw [Store.hasAt_congr (h c (List.mem_cons_self c cs))]
    cases Store.hasAt st₂ c slot₂ with
    | error e => rfl
    | ok b =>
      cases b
      · rfl
      · simpa using ih (fun c' hc' => h c' (List.mem_cons_of_mem _ hc'))

theorem anyHasAt_congr {st st₂ : Store} {slot slot₂ : Nat} :
    ∀ (cs : List ComponentId),
    (∀ c ∈ cs, Store.viewAt st slot c = Store.viewAt st₂ slot₂ c) →
    anyHasAt st slot cs = anyHasAt st₂ slot₂ cs := by
  intro cs
  induction cs with
  | nil => intro _; rfl
  | cons c cs ih =>
    intro h
    unfold anyHasAt
    rw [Store.hasAt_congr (h c (List.mem_cons_self c cs))]
    cases Store.hasAt st₂ c slot₂ with
    | error e => rfl
    | ok b =>
      cases b
      · simpa using ih (fun c' hc' => h c' (List.mem_cons_of_mem _ hc'))
      · rfl

theorem checkAspectAt_congr {st st₂ : Store} {slot slot₂ : Nat} (a : Aspect)
    (h : ∀ c, Store.viewAt st slot c = Store.viewAt st₂ slot₂ c) :
    checkAspectAt st a slot = checkAspectAt st₂ a slot₂ := by
  unfold checkAspectAt
  rw [allHasAt_congr a.all (fun c _ => h c), anyHasAt_congr a.none (fun c _ => h c),
      anyHasAt_congr a.any (fun c _ => h c)]

/-! ## Entity manager invariant lemmas -/

theorem EMInv.new_inv : EMInv EntityManager.new := by
  refine ⟨?_, ?_, ?_, ?_, ?_, ?_⟩ <;> simp [EntityManager.new, IndexPool.new]

theorem EntityManager.create_eq_cons {m : EntityManager} {i : Nat} {rest : List Nat}
    (hrec : m.indices.recycled = i :: rest) :
    m.create = (m.next_id + 1,
      { indices := { recycled := rest, next_index := m.indices.next_index }
        entities := fun x => if x = m.next_id + 1 then some i else m.entities x
        next_id := m.next_id + 1 }) := by
  simp [EntityManager.create, IndexPool.get_index, hrec]

theorem EntityManager.create_eq_nil {m : EntityManager}
    (hrec : m.indices.recycled = []) :
    m.create = (m.next_id + 1,
      { indices := { recycled := [], next_index := m.indices.next_index + 1 }
        entities := fun x =>
          if x = m.next_id + 1 then some m.indices.next_index else m.entities x
        next_id := m.next_id + 1 }) := by
  simp [EntityManager.create, IndexPool.get_index, hrec]

theorem EntityManager.remove_eq {m : EntityManager} {e : Entity} {s : Nat}
    (he : m.entities e = some s) :
    m.remove e =
      { indices := { recycled := s :: m.indices.recycled
                     next_index := m.indices.next_index }
        entities := fun x => if x = e then Option.none else m.entities x
        next_id := m.next_id } := by
  simp [EntityManager.remove, he, IndexPool.return_id]

theorem EMInv.create {m : EntityManager} (h : EMInv m) :
    EMInv (m.create).2 ∧
    m.entities (m.create).1 = Option.none ∧
    (m.create).1 = m.next_id + 1 ∧
    ∃ s, (m.create).2.entities (m.create).1 = some s ∧
      (∀ e', m.entities e' ≠ some s) ∧
      (∀ x, x ≠ (m.create).1 → (m.create).2.entities x = m.entities x) := by
  have hfresh : m.entities (m.next_id + 1) = Option.none := by
    cases hme : m.entities (m.next_id + 1) with
    | none => rfl
    | some s => exact absurd (h.ids_le _ _ hme) (Nat.not_succ_le_self m.next_id)
  cases hrec : m.indices.recycled with
  | cons i rest =>
    have hnd := h.rec_nodup
    rw [hrec, List.nodup_cons] at hnd
    have hi : i ∈ m.indices.recycled := by rw [hrec]; exact List.mem_cons_self i rest
    rw [EntityManager.create_eq_cons hrec]
    refine ⟨⟨?_, ?_, ?_, ?_, ?_, ?_⟩, hfresh, rfl, i, by simp, h.rec_free i hi, ?_⟩ <;>
      dsimp only
    · intro x s hx
      by_cases hxe : x = m.next_id + 1
      · exact le_of_eq hxe
      · rw [if_neg hxe] at hx
        exact Nat.le_succ_of_le (h.ids_le _ _ hx)
    · intro x s hx
      by_cases hxe : x = m.next_id + 1
      · rw [if_pos hxe] at hx
        injection hx with hx
        subst hx
        exact h.rec_lt i hi
      · rw [if_neg hxe] at hx
        exact h.slots_lt _ _ hx
    · intro x1 x2 s hx1 hx2
      by_cases he1 : x1 = m.next_id + 1 <;> by_cases he2 : x2 = m.next_id + 1
      · rw [he1, he2]
      · rw [if_pos he1] at hx1
        rw [if_neg he2] at hx2
        injection hx1 with hx1
        subst hx1
        exact absurd hx2 (h.rec_free i hi x2)
      · rw [if_neg he1] at hx1
        rw [if_pos he2] at hx2
        injection hx2 with hx2
        subst hx2
        exact absurd hx1 (h.rec_free i hi x1)
      · rw [if_neg he1] at hx1
        rw [if_neg he2] at hx2
        exact h.slots_inj _ _ _ hx1 hx2
    · intro j hj
      exact h.rec_lt j (by rw [hrec]; exact List.mem_cons_of_mem _ hj)
    · intro j hj x
      by_cases hxe : x = m.next_id + 1
      · rw [if_pos hxe]
        intro hij
        injection hij with hij
        exact hnd.1 (hij ▸ hj)
      · rw [if_neg hxe]
        exact h.rec_free j (by rw [hrec]; exact List.mem_cons_of_mem _ hj) x
    · exact hnd.2
    · intro x hx
      simp [hx]
  | nil =>
    rw [EntityManager.create_eq_nil hrec]
    refine ⟨⟨?_, ?_, ?_, ?_, ?_, ?_⟩, hfresh, rfl, m.indices.next_index, by simp, ?_, ?_⟩ <;>
      dsimp only
    · intro x s hx
      by_cases hxe : x = m.next_id + 1
      · exact le_of_eq hxe
      · rw [if_neg hxe] at hx
        exact Nat.le_succ_of_le (h.ids_le _ _ hx)
    · intro x s hx
      by_cases hxe : x = m.next_id + 1
      · rw [if_pos hxe] at hx
        injection hx with hx
        omega
      · rw [if_neg hxe] at hx
        exact Nat.lt_succ_of_lt (h.slots_lt _ _ hx)
    · intro x1 x2 s hx1 hx2
      by_cases he1 : x1 = m.next_id + 1 <;> by_cases he2 : x2 = m.next_id + 1
      · rw [he1, he2]
      · rw [if_pos he1] at hx1
        rw [if_neg he2] at hx2
        injection hx1 with hx1
        subst hx1
        exact absurd (h.slots_lt _ _ hx2) (by omega)
      · rw [if_neg he1] at hx1
        rw [if_pos he2] at hx2
        injection hx2 with hx2
        subst hx2
        exact absurd (h.slots_lt _ _ hx1) (by omega)
      · rw [if_neg he1] at hx1
        rw [if_neg he2] at hx2
        exact h.slots_inj _ _ _ hx1 hx2
    · intro j hj
      exact absurd hj (List.not_mem_nil j)
    · intro j hj
      exact absurd hj (List.not_mem_nil j)
    · exact List.nodup_nil
    · intro e' hcon
      exact absurd (h.slots_lt _ _ hcon) (by omega)
    · intro x hx
      simp [hx]

theorem EMInv.remove_some {m : EntityManager} (h : EMInv m) {e : Entity} {s : Nat}
    (he : m.entities e = some s) :
    EMInv (m.remove e) ∧
    (m.remove e).entities e = Option.none ∧
    (∀ x, x ≠ e → (m.remove e).entities x = m.entities x) ∧
    (m.remove e).indices.recycled = s :: m.indices.recycled ∧
    (m.remove e).indices.next_index = m.indices.next_index ∧
    (m.remove e).next_id = m.next_id := by
  have hsnot : s ∉ m.indices.recycled := fun hs => h.rec_free s hs e he
  rw [EntityManager.remove_eq he]
  refine ⟨⟨?_, ?_, ?_, ?_, ?_, ?_⟩, by simp, ?_, rfl, rfl, rfl⟩ <;>
    dsimp only
  · intro x sx hx
    by_cases hxe : x = e
    · rw [if_pos hxe] at hx
      exact absurd hx (by simp)
    · rw [if_neg hxe] at hx
      exact h.ids_le _ _ hx
  · intro x sx hx
    by_cases hxe : x = e
    · rw [if_pos hxe] at hx
      exact absurd hx (by simp)
    · rw [if_neg hxe] at hx
      exact h.slots_lt _ _ hx
  · intro x1 x2 sx hx1 hx2
    by_cases he1 : x1 = e
    · rw [if_pos he1] at hx1
      exact absurd hx1 (by simp)
    · by_cases he2 : x2 = e
      · rw [if_pos he2] at hx2
        exact absurd hx2 (by simp)
      · rw [if_neg he1] at hx1
        rw [if_neg he2] at hx2
        exact h.slots_inj _ _ _ hx1 hx2
  · intro j hj
    rcases List.mem_cons.mp hj with rfl | hj
    · exact h.slots_lt _ _ he
    · exact h.rec_lt j hj
  · intro j hj x
    by_cases hxe : x = e
    · rw [if_pos hxe]
      simp
    · rw [if_neg hxe]
      rcases List.mem_cons.mp hj with rfl | hj
      · intro hcon
        exact hxe (h.slots_inj _ _ _ hcon he)
      · exact h.rec_free j hj x
  · exact List.nodup_cons.mpr (And.intro hsnot h.rec_nodup)
  · intro x hx
    simp [hx]

/-! ## World-level helper lemmas -/

theorem WorldInv.congr {w w' : World} {pend : List (Entity × Builder)}
    (h : WorldInv w pend)
    (he : w'.entities = w.entities) (hc : w'.components = w.components)
    (hs : w'.systems = w.systems) : WorldInv w' pend := by
  refine ⟨?_, ?_, ?_, ?_, ?_, h.pend_nodup, ?_⟩
  · rw [he]; exact h.em
  · rw [hc, he]; exact h.store_owned
  · rw [he]; exact h.pend_valid
  · rw [he, hc]; exact h.pend_empty
  · rw [hs]; exact h.pend_not_interested
  · rw [hs, he, hc]; exact h.sync

namespace World

theorem activateSystems_ok_mem {comps : Store} {slot : Nat} {e : Entity} :
    ∀ {ts ts' : List EntitySystem},
    activateSystems comps slot e ts = Except.ok ts' →
    ∀ t' ∈ ts', ∃ t ∈ ts, ∃ c, checkAspectAt comps t.aspect slot = Except.ok c ∧
      t' = (t.activatedWith e c).1 := by
  intro ts
  induction ts with
  | nil =>
    intro ts' h t' ht'
    unfold activateSystems at h
    injection h with h
    subst h
    exact absurd ht' (List.not_mem_nil t')
  | cons t ts ih =>
    intro ts' h t' ht'
    unfold activateSystems at h
    cases h1 : checkAspectAt comps t.aspect slot with
    | error err => rw [h1] at h; exact absurd h (by simp)
    | ok c =>
      rw [h1] at h
      cases h2 : activateSystems comps slot e ts with
      | error err => rw [h2] at h; exact absurd h (by simp)
      | ok rest =>
        rw [h2] at h
        injection h with h
        subst h
        rcases List.mem_cons.mp ht' with rfl | hmem
        · exact ⟨t, List.mem_cons_self t ts, c, h1, rfl⟩
        · obtain ⟨t0, ht0, c0, hc0, he0⟩ := ih h2 t' hmem
          exact ⟨t0, List.mem_cons_of_mem t ht0, c0, hc0, he0⟩

theorem reactivateSystems_ok_mem {comps : Store} {slot : Nat} {e : Entity} :
    ∀ {ts ts' : List EntitySystem},
    reactivateSystems comps slot e ts = Except.ok ts' →
    ∀ t' ∈ ts', ∃ t ∈ ts, ∃ c, checkAspectAt comps t.aspect slot = Except.ok c ∧
      t' = (t.reactivatedWith e c).1 := by
  intro ts
  induction ts with
  | nil =>
    intro ts' h t' ht'
    unfold reactivateSystems at h
    injection h with h
    subst h
    exact absurd ht' (List.not_mem_nil t')
  | cons t ts ih =>
    intro ts' h t' ht'
    unfold reactivateSystems at h
    cases h1 : checkAspectAt comps t.aspect slot with
    | error err => rw [h1] at h; exact absurd h (by simp)
    | ok c =>
      rw [h1] at h
      cases h2 : reactivateSystems comps slot e ts with
      | error err => rw [h2] at h; exact absurd h (by simp)
      | ok rest =>
        rw [h2] at h
        injection h with h
        subst h
        rcases List.mem_cons.mp ht' with rfl | hmem
        · exact ⟨t, List.mem_cons_self t ts, c, h1, rfl⟩
        · obtain ⟨t0, ht0, c0, hc0, he0⟩ := ih h2 t' hmem
          exact ⟨t0, List.mem_cons_of_mem t ht0, c0, hc0, he0⟩

theorem activate_ok {w : World} {e : Entity} {w' : World}
    (h : w.activate_entity e = Except.ok w') :
    ∃ slot, w.entities.entities e = some slot ∧
      w'.entities = w.entities ∧ w'.components = w.components ∧
      w'.build_queue = w.build_queue ∧ w'.modify_queue = w.modify_queue ∧
      w'.remove_queue = w.remove_queue ∧
      activateSystems w.components slot e w.systems = Except.ok w'.systems := by
  unfold activate_entity at h
  cases h1 : w.entities.entities e with
  | none => rw [h1] at h; exact absurd h (by simp)
  | some slot =>
    rw [h1] at h
    dsimp only at h
    cases h2 : activateSystems w.components slot e w.systems with
    | error err => rw [h2] at h; exact absurd h (by simp)
    | ok ts' =>
      rw [h2] at h
      injection h with h
      subst h
      exact ⟨slot, rfl, rfl, rfl, rfl, rfl, rfl, h2⟩

theorem reactivate_ok {w : World} {e : Entity} {w' : World}
    (h : w.reactivate_entity e = Except.ok w') :
    ∃ slot, w.entities.entities e = some slot ∧
      w'.entities = w.entities ∧ w'.components = w.components ∧
      w'.build_queue = w.build_queue ∧ w'.modify_queue = w.modify_queue ∧
      w'.remove_queue = w.remove_queue ∧
      reactivateSystems w.components slot e w.systems = Except.ok w'.systems := by
  unfold reactivate_entity at h
  cases h1 : w.entities.entities e with
  | none => rw [h1] at h; exact absurd h (by simp)
  | some slot =>
    rw [h1] at h
    dsimp only at h
    cases h2 : reactivateSystems w.components slot e w.systems with
    | error err => rw [h2] at h; exact absurd h (by simp)
    | ok ts' =>
      rw [h2] at h
      injection h with h
      subst h
      exact ⟨slot, rfl, rfl, rfl, rfl, rfl, rfl, h2⟩

end World

/-! ## Invariant preservation: build, modify, remove -/

theorem buildActivate_inv (pa pb : List (Entity × Builder)) {w : World} {e : Entity}
    {b0 b : Builder} {s : Nat} {comps : Store} {w' : World}
    (hinv : WorldInv w (pa ++ (e, b0) :: pb))
    (hes : w.entities.entities e = some s)
    (hap : Store.applyBuilder b s w.components = Except.ok comps)
    (hact : World.activate_entity { w with components := comps } e = Except.ok w') :
    WorldInv w' (pa ++ pb) := by
  obtain ⟨slot, hslot, hent, hcmp, _, _, _, hsys⟩ := World.activate_ok hact
  dsimp only at hslot hcmp hsys
  rw [hes] at hslot
  injection hslot with hslot
  subst hslot
  obtain ⟨hreg, hview⟩ := Store.applyBuilder_ok b w.components comps s hap
  have hememb : (e, b0) ∈ pa ++ (e, b0) :: pb :=
    List.mem_append_right pa (List.mem_cons_self _ _)
  have henotint : ∀ t ∈ w.systems, e ∉ t.interested :=
    fun t ht => hinv.pend_not_interested (e, b0) hememb t ht
  have hnd := hinv.pend_nodup
  rw [List.map_append, List.map_cons] at hnd
  obtain ⟨hnm, hnd'⟩ := List.nodup_cons.mp (List.nodup_middle.mp hnd)
  have hnotpend : ∀ p ∈ pa ++ pb, p.1 ≠ e := by
    intro p hp hpe
    apply hnm
    have hmm : p.1 ∈ (pa ++ pb).map Prod.fst := List.mem_map_of_mem Prod.fst hp
    rw [List.map_append] at hmm
    rw [hpe] at hmm
    exact hmm
  have hsub : ∀ p ∈ pa ++ pb, p ∈ pa ++ (e, b0) :: pb := by
    intro p hp
    rcases List.mem_append.mp hp with hl | hr
    · exact List.mem_append_left _ hl
    · exact List.mem_append_right _ (List.mem_cons_of_mem _ hr)
  have huniq : ∀ x sx, w.entities.entities x = some sx → x ≠ e → sx ≠ s := by
    intro x sx hx hxe hcon
    subst hcon
    exact hxe (hinv.em.slots_inj x e sx hx hes)
  have hcheck_ne : ∀ sx, sx ≠ s → ∀ a, checkAspectAt comps a sx = checkAspectAt w.components a sx :=
    fun sx hsx a => checkAspectAt_congr a (fun c => hview sx hsx c)
  refine ⟨?_, ?_, ?_, ?_, ?_, ?_, ?_⟩
  · rw [hent]; exact hinv.em
  · intro cid f s' hc hsome
    rw [hcmp] at hc
    by_cases hs' : s' = s
    · exact ⟨e, by rw [hent, hs']; exact hes⟩
    · have hv := hview s' hs' cid
      rw [Store.viewAt_some_iff.mpr ⟨f, hc, rfl⟩] at hv
      obtain ⟨g, hg, hgs⟩ := Store.viewAt_some_iff.mp hv.symm
      obtain ⟨x, hx⟩ := hinv.store_owned cid g s' hg (by rw [hgs]; exact hsome)
      exact ⟨x, by rw [hent]; exact hx⟩
  · intro p hp
    rw [hent]
    exact hinv.pend_valid p (hsub p hp)
  · intro p hp sp hsp cid f hcf
    rw [hent] at hsp
    rw [hcmp] at hcf
    have hspne : sp ≠ s := huniq p.1 sp hsp (hnotpend p hp)
    have hv := hview sp hspne cid
    rw [Store.viewAt_some_iff.mpr ⟨f, hcf, rfl⟩] at hv
    obtain ⟨g, hg, hgs⟩ := Store.viewAt_some_iff.mp hv.symm
    rw [← hgs]
    exact hinv.pend_empty p (hsub p hp) sp hsp cid g hg
  · intro p hp t' ht'
    obtain ⟨t, ht, c, hc, rfl⟩ := World.activateSystems_ok_mem hsys t' ht'
    rw [EntitySystem.mem_activatedWith]
    rintro (hmem | ⟨-, hpe⟩)
    · exact hinv.pend_not_interested p (hsub p hp) t ht hmem
    · exact hnotpend p hp hpe
  · rw [List.map_append]
    exact hnd'
  · intro t' ht' x hx
    obtain ⟨t, ht, c, hc, rfl⟩ := World.activateSystems_ok_mem hsys t' ht'
    rw [EntitySystem.aspect_activatedWith, hent, hcmp]
    by_cases hxe : x = e
    · subst hxe
      rw [EntitySystem.mem_activatedWith]
      constructor
      · rintro (hmem | ⟨hcT, -⟩)
        · exact absurd hmem (henotint t ht)
        · exact ⟨s, hes, by rw [hc, hcT]⟩
      · rintro ⟨sx, hsx, hchk⟩
        rw [hes] at hsx
        injection hsx with hsx
        subst hsx
        rw [hc] at hchk
        injection hchk with hchk
        exact Or.inr ⟨hchk, rfl⟩
    · have hmem : x ∈ (t.activatedWith e c).1.interested ↔ x ∈ t.interested := by
        rw [EntitySystem.mem_activatedWith]
        simp [hxe]
      rw [hmem]
      have hnames : ∀ p ∈ pa ++ (e, b0) :: pb, p.1 ≠ x := by
        intro p hp
        rcases List.mem_append.mp hp with hl | hr
        · exact hx p (List.mem_append_left _ hl)
        · rcases List.mem_cons.mp hr with rfl | hr'
          · exact fun hcon => hxe hcon.symm
          · exact hx p (List.mem_append_right _ hr')
      rw [hinv.sync t ht x hnames]
      constructor
      · rintro ⟨sx, hsx, hchk⟩
        refine ⟨sx, hsx, ?_⟩
        rw [hcheck_ne sx (huniq x sx hsx hxe)]
        exact hchk
      · rintro ⟨sx, hsx, hchk⟩
        refine ⟨sx, hsx, ?_⟩
        rw [← hcheck_ne sx (huniq x sx hsx hxe)]
        exact hchk

theorem modifyReactivate_inv {w : World} {e : Entity} {m : Builder} {s : Nat}
    {comps : Store} {w' : World}
    (hinv : WorldInv w [])
    (hes : w.entities.entities e = some s)
    (hap : Store.applyBuilder m s w.components = Except.ok comps)
    (hact : World.reactivate_entity { w with components := comps } e = Except.ok w') :
    WorldInv w' [] := by
  obtain ⟨slot, hslot, hent, hcmp, _, _, _, hsys⟩ := World.reactivate_ok hact
  dsimp only at hslot hcmp hsys
  rw [hes] at hslot
  injection hslot with hslot
  subst hslot
  obtain ⟨hreg, hview⟩ := Store.applyBuilder_ok m w.components comps s hap
  have huniq : ∀ x sx, w.entities.entities x = some sx → x ≠ e → sx ≠ s := by
    intro x sx hx hxe hcon
    subst hcon
    exact hxe (hinv.em.slots_inj x e sx hx hes)
  have hcheck_ne : ∀ sx, sx ≠ s → ∀ a,
      checkAspectAt comps a sx = checkAspectAt w.components a sx :=
    fun sx hsx a => checkAspectAt_congr a (fun c => hview sx hsx c)
  refine ⟨?_, ?_, by simp, by simp, by simp, by simp, ?_⟩
  · rw [hent]; exact hinv.em
  · intro cid f s' hc hsome
    rw [hcmp] at hc
    by_cases hs' : s' = s
    · exact ⟨e, by rw [hent, hs']; exact hes⟩
    · have hv := hview s' hs' cid
      rw [Store.viewAt_some_iff.mpr ⟨f, hc, rfl⟩] at hv
      obtain ⟨g, hg, hgs⟩ := Store.viewAt_some_iff.mp hv.symm
      obtain ⟨x, hx⟩ := hinv.store_owned cid g s' hg (by rw [hgs]; exact hsome)
      exact ⟨x, by rw [hent]; exact hx⟩
  · intro t' ht' x hx
    obtain ⟨t, ht, c, hc, rfl⟩ := World.reactivateSystems_ok_mem hsys t' ht'
    rw [EntitySystem.aspect_reactivatedWith, hent, hcmp]
    by_cases hxe : x = e
    · subst hxe
      rw [EntitySystem.mem_reactivatedWith_self]
      constructor
      · intro hcT
        exact ⟨s, hes, by rw [hc, hcT]⟩
      · rintro ⟨sx, hsx, hchk⟩
        rw [hes] at hsx
        injection hsx with hsx
        subst hsx
        rw [hchk] at hc
        exact (Except.ok.inj hc).symm
    · rw [EntitySystem.mem_reactivatedWith_ne hxe]
      rw [hinv.sync t ht x (by simp)]
      constructor
      · rintro ⟨sx, hsx, hchk⟩
        refine ⟨sx, hsx, ?_⟩
        rw [hcheck_ne sx (huniq x sx hsx hxe)]
        exact hchk
      · rintro ⟨sx, hsx, hchk⟩
        refine ⟨sx, hsx, ?_⟩
        rw [← hcheck_ne sx (huniq x sx hsx hxe)]
        exact hchk

theorem remove_inv {w : World} (hinv : WorldInv w []) (e : Entity) :
    WorldInv (w.remove_entity e) [] := by
  cases he : w.entities.entities e with
  | none =>
    have hw : w.remove_entity e = w := by
      unfold World.remove_entity
      rw [he]
    rw [hw]
    exact hinv
  | some s =>
    obtain ⟨hem, hnone, hpres, hrec, hni, hnid⟩ := EMInv.remove_some hinv.em he
    have hw : w.remove_entity e =
        { w with
          systems := w.systems.map (fun t => (t.deactivatedT e).1)
          components := w.components.purgeSlot s
          entities := w.entities.remove e } := by
      unfold World.remove_entity
      rw [he]
    rw [hw]
    have huniq : ∀ x sx, w.entities.entities x = some sx → x ≠ e → sx ≠ s := by
      intro x sx hx hxe hcon
      subst hcon
      exact hxe (hinv.em.slots_inj x e sx hx he)
    refine ⟨hem, ?_, by simp, by simp, by simp, by simp, ?_⟩
    · intro cid f s' hc hsome
      dsimp only at hc
      cases hcg : w.components cid with
      | none =>
        unfold Store.purgeSlot at hc
        rw [hcg] at hc
        exact absurd hc (by simp)
      | some g =>
        unfold Store.purgeSlot at hc
        rw [hcg] at hc
        injection hc with hc
        subst hc
        by_cases hs' : s' = s
        · rw [hs'] at hsome
          simp at hsome
        · have hgs : (g s').isSome := by
            simpa [hs'] using hsome
          obtain ⟨x, hx⟩ := hinv.store_owned cid g s' hcg hgs
          have hxe : x ≠ e := by
            intro hcon
            subst hcon
            rw [he] at hx
            injection hx with hx
            exact hs' hx.symm
          exact ⟨x, by rw [hpres x hxe]; exact hx⟩
    · intro t' ht' x hx
      obtain ⟨t, ht, rfl⟩ := List.mem_map.mp ht'
      rw [EntitySystem.aspect_deactivatedT, EntitySystem.mem_deactivatedT]
      by_cases hxe : x = e
      · subst hxe
        refine iff_of_false (fun hcon => hcon.2 rfl) ?_
        rintro ⟨sx, hsx, -⟩
        rw [hnone] at hsx
        exact absurd hsx (by simp)
      · have hlhs : (x ∈ t.interested ∧ x ≠ e) ↔ x ∈ t.interested := by
          constructor
          · exact And.left
          · exact fun hm => ⟨hm, hxe⟩
        rw [hlhs, hinv.sync t ht x (by simp)]
        constructor
        · rintro ⟨sx, hsx, hchk⟩
          refine ⟨sx, by rw [hpres x hxe]; exact hsx, ?_⟩
          rw [checkAspectAt_congr t.aspect
            (fun c => Store.purgeSlot_view_ne (huniq x sx hsx hxe) w.components c)]
          exact hchk
        · rintro ⟨sx, hsx, hchk⟩
          rw [hpres x hxe] at hsx
          refine ⟨sx, hsx, ?_⟩
          rw [← checkAspectAt_congr t.aspect
            (fun c => Store.purgeSlot_view_ne (huniq x sx hsx hxe) w.components c)]
          exact hchk

theorem World.queue_builder_eq (w : World) (b : Builder) :
    w.queue_builder b = ((w.entities.create).1,
      { w with entities := (w.entities.create).2
               build_queue := w.build_queue ++ [((w.entities.create).1, b)] }) := rfl

theorem create_inv {w : World} {pend : List (Entity × Builder)}
    (h : WorldInv w pend) (b : Builder) :
    WorldInv { w with entities := (w.entities.create).2 }
      (pend ++ [((w.entities.create).1, b)]) := by
  obtain ⟨hem, hfresh, hid, s, hes, hsfree, hpres⟩ := EMInv.create h.em
  have henot : ∀ p ∈ pend, p.1 ≠ (w.entities.create).1 := by
    intro p hp hcon
    have hv := h.pend_valid p hp
    rw [hcon, hfresh] at hv
    exact absurd hv (by simp)
  refine ⟨hem, ?_, ?_, ?_, ?_, ?_, ?_⟩ <;> dsimp only
  · intro cid f s' hc hsome
    obtain ⟨x, hx⟩ := h.store_owned cid f s' hc hsome
    have hxe : x ≠ (w.entities.create).1 := by
      intro hcon
      rw [hcon, hfresh] at hx
      exact absurd hx (by simp)
    exact ⟨x, by rw [hpres x hxe]; exact hx⟩
  · intro p hp
    rcases List.mem_append.mp hp with hold | hnew
    · rw [hpres p.1 (henot p hold)]
      exact h.pend_valid p hold
    · rcases List.mem_singleton.mp hnew with rfl
      rw [hes]
      rfl
  · intro p hp sp hsp cid f hc
    rcases List.mem_append.mp hp with hold | hnew
    · rw [hpres p.1 (henot p hold)] at hsp
      exact h.pend_empty p hold sp hsp cid f hc
    · rcases List.mem_singleton.mp hnew with rfl
      rw [hes] at hsp
      injection hsp with hsp
      rw [← hsp]
      cases hfs : f s with
      | none => rfl
      | some v =>
        obtain ⟨x, hx⟩ := h.store_owned cid f s hc (by rw [hfs]; rfl)
        exact absurd hx (hsfree x)
  · intro p hp t ht
    rcases List.mem_append.mp hp with hold | hnew
    · exact h.pend_not_interested p hold t ht
    · rcases List.mem_singleton.mp hnew with rfl
      rw [h.sync t ht (w.entities.create).1 henot]
      rintro ⟨sx, hsx, -⟩
      rw [hfresh] at hsx
      exact absurd hsx (by simp)
  · rw [List.map_append]
    rw [List.nodup_append]
    refine ⟨h.pend_nodup, by simp, ?_⟩
    intro a ha hb
    simp only [List.map_cons, List.map_nil, List.mem_singleton] at hb
    obtain ⟨p, hp, rfl⟩ := List.mem_map.mp ha
    exact henot p hp hb
  · intro t ht x hx
    have hxe : x ≠ (w.entities.create).1 := by
      intro hcon
      exact hx ((w.entities.create).1, b)
        (List.mem_append_right _ (List.mem_singleton_self _)) hcon.symm
    have hnames : ∀ p ∈ pend, p.1 ≠ x :=
      fun p hp => hx p (List.mem_append_left _ hp)
    rw [h.sync t ht x hnames, hpres x hxe]

theorem drainBuild_inv : ∀ (bq : List (Entity × Builder)) (w w' : World),
    WorldInv w bq → World.drainBuild w bq = Except.ok w' →
    WorldInv w' [] ∧ w'.build_queue = w.build_queue ∧
    w'.modify_queue = w.modify_queue ∧ w'.remove_queue = w.remove_queue := by
  intro bq
  induction bq with
  | nil =>
    intro w w' h hd
    unfold World.drainBuild at hd
    injection hd with hd
    subst hd
    exact ⟨h, rfl, rfl, rfl⟩
  | cons p rest ih =>
    intro w w' h hd
    obtain ⟨e, b⟩ := p
    unfold World.drainBuild at hd
    cases hes : w.entities.entities e with
    | none =>
      rw [hes] at hd
      exact absurd hd (by simp)
    | some s =>
      rw [hes] at hd
      dsimp only at hd
      cases hap : Store.applyBuilder b s w.components with
      | error err =>
        rw [hap] at hd
        exact absurd hd (by simp)
      | ok comps =>
        rw [hap] at hd
        dsimp only at hd
        cases hact : World.activate_entity { w with components := comps } e with
        | error err =>
          rw [hact] at hd
          exact absurd hd (by simp)
        | ok w1 =>
          rw [hact] at hd
          have hinv1 : WorldInv w1 rest :=
            buildActivate_inv [] rest h hes hap hact
          obtain ⟨slot, _, _, _, hb1, hm1, hr1, _⟩ := World.activate_ok hact
          obtain ⟨hres, hq1, hq2, hq3⟩ := ih w1 w' hinv1 hd
          refine ⟨hres, ?_, ?_, ?_⟩
          · rw [hq1, hb1]
          · rw [hq2, hm1]
          · rw [hq3, hr1]

theorem drainModify_inv : ∀ (mq : List (Entity × Builder)) (w w' : World),
    WorldInv w [] → World.drainModify w mq = Except.ok w' →
    WorldInv w' [] ∧ w'.build_queue = w.build_queue ∧
    w'.modify_queue = w.modify_queue ∧ w'.remove_queue = w.remove_queue := by
  intro mq
  induction mq with
  | nil =>
    intro w w' h hd
    unfold World.drainModify at hd
    injection hd with hd
    subst hd
    exact ⟨h, rfl, rfl, rfl⟩
  | cons p rest ih =>
    intro w w' h hd
    obtain ⟨e, m⟩ := p
    unfold World.drainModify at hd
    cases hes : w.entities.entities e with
    | none =>
      rw [hes] at hd
      exact absurd hd (by simp)
    | some s =>
      rw [hes] at hd
      dsimp only at hd
      cases hap : Store.applyBuilder m s w.components with
      | error err =>
        rw [hap] at hd
        exact absurd hd (by simp)
      | ok comps =>
        rw [hap] at hd
        dsimp only at hd
        cases hact : World.reactivate_entity { w with components := comps } e with
        | error err =>
          rw [hact] at hd
          exact absurd hd (by simp)
        | ok w1 =>
          rw [hact] at hd
          have hinv1 : WorldInv w1 [] := modifyReactivate_inv h hes hap hact
          obtain ⟨slot, _, _, _, hb1, hm1, hr1, _⟩ := World.reactivate_ok hact
          obtain ⟨hres, hq1, hq2, hq3⟩ := ih w1 w' hinv1 hd
          refine ⟨hres, ?_, ?_, ?_⟩
          · rw [hq1, hb1]
          · rw [hq2, hm1]
          · rw [hq3, hr1]

theorem World.remove_entity_queues (w : World) (e : Entity) :
    (w.remove_entity e).build_queue = w.build_queue ∧
    (w.remove_entity e).modify_queue = w.modify_queue ∧
    (w.remove_entity e).remove_queue = w.remove_queue := by
  unfold World.remove_entity
  cases w.entities.entities e <;> exact ⟨rfl, rfl, rfl⟩

theorem drainRemove_inv : ∀ (rq : List Entity) (w : World),
    WorldInv w [] →
    WorldInv (World.drainRemove w rq) [] ∧
    (World.drainRemove w rq).build_queue = w.build_queue ∧
    (World.drainRemove w rq).modify_queue = w.modify_queue ∧
    (World.drainRemove w rq).remove_queue = w.remove_queue := by
  intro rq
  induction rq with
  | nil =>
    intro w h
    exact ⟨h, rfl, rfl, rfl⟩
  | cons e rest ih =>
    intro w h
    obtain ⟨hq1, hq2, hq3⟩ := World.remove_entity_queues w e
    obtain ⟨hres, hr1, hr2, hr3⟩ := ih (w.remove_entity e) (remove_inv h e)
    exact ⟨hres, hr1.trans hq1, hr2.trans hq2, hr3.trans hq3⟩

theorem processStep_inv {w : World} (h : WorldInv w w.build_queue) (r : Request) :
    WorldInv (w.processStep r) (w.processStep r).build_queue := by
  cases r with
  | build b =>
    have hcr := create_inv h b
    exact WorldInv.congr hcr rfl rfl rfl
  | modify e m =>
    exact WorldInv.congr h rfl rfl rfl
  | remove e =>
    exact WorldInv.congr h rfl rfl rfl

theorem processPhase_inv : ∀ (reqs : List Request) (w : World),
    WorldInv w w.build_queue →
    WorldInv (w.processPhase reqs) (w.processPhase reqs).build_queue := by
  intro reqs
  induction reqs with
  | nil => intro w h; exact h
  | cons r rest ih =>
    intro w h
    exact ih (w.processStep r) (processStep_inv h r)

theorem World.update_eq (w : World) (reqs : List Request) :
    w.update reqs =
      match World.drainBuild { w.processPhase reqs with build_queue := [] }
          (w.processPhase reqs).build_queue with
      | Except.error err => Except.error err
      | Except.ok w1 =>
          match World.drainModify { w1 with modify_queue := [] } w1.modify_queue with
          | Except.error err => Except.error err
          | Except.ok w2 =>
              Except.ok (World.drainRemove { w2 with remove_queue := [] }
                w2.remove_queue) := rfl

theorem update_inv {w : World} {reqs : List Request} {w' : World}
    (h : WorldInv w w.build_queue) (hu : w.update reqs = Except.ok w') :
    WorldInv w' [] ∧ w'.build_queue = [] ∧ w'.modify_queue = [] ∧
    w'.remove_queue = [] := by
  rw [World.update_eq] at hu
  have h0 : WorldInv (w.processPhase reqs) (w.processPhase reqs).build_queue :=
    processPhase_inv reqs w h
  have h0' : WorldInv { w.processPhase reqs with build_queue := [] }
      (w.processPhase reqs).build_queue := WorldInv.congr h0 rfl rfl rfl
  cases hd1 : World.drainBuild { w.processPhase reqs with build_queue := [] }
      (w.processPhase reqs).build_queue with
  | error err =>
    rw [hd1] at hu
    exact absurd hu (by simp)
  | ok w1 =>
    rw [hd1] at hu
    dsimp only at hu
    obtain ⟨hinv1, hb1, hm1, hr1⟩ := drainBuild_inv _ _ _ h0' hd1
    have hb1' : w1.build_queue = [] := hb1
    have hinv1' : WorldInv { w1 with modify_queue := [] } [] :=
      WorldInv.congr hinv1 rfl rfl rfl
    cases hd2 : World.drainModify { w1 with modify_queue := [] } w1.modify_queue with
    | error err =>
      rw [hd2] at hu
      exact absurd hu (by simp)
    | ok w2 =>
      rw [hd2] at hu
      dsimp only at hu
      injection hu with hu
      obtain ⟨hinv2, hb2, hm2, hr2⟩ := drainModify_inv _ _ _ hinv1' hd2
      have hb2' : w2.build_queue = [] := by
        rw [hb2]
        exact hb1'
      have hm2' : w2.modify_queue = [] := hm2
      have hinv2' : WorldInv { w2 with remove_queue := [] } [] :=
        WorldInv.congr hinv2 rfl rfl rfl
      obtain ⟨hres, hrb, hrm, hrr⟩ :=
        drainRemove_inv w2.remove_queue { w2 with remove_queue := [] } hinv2'
      subst hu
      refine ⟨hres, ?_, ?_, ?_⟩
      · rw [hrb]
        exact hb2'
      · rw [hrm]
        exact hm2'
      · rw [hrr]

theorem world_new_inv (reg : ComponentId → Bool) (aspects : List Aspect) :
    WorldInv (World.new reg aspects) [] := by
  refine ⟨EMInv.new_inv, ?_, by simp, by simp, by simp, by simp, ?_⟩
  · intro cid f s hc hs
    dsimp only [World.new] at hc
    by_cases hr : reg cid
    · rw [if_pos hr] at hc
      injection hc with hc
      subst hc
      exact absurd hs (by simp)
    · rw [if_neg hr] at hc
      exact absurd hc (by simp)
  · intro t ht x hx
    dsimp only [World.new] at ht ⊢
    obtain ⟨a, ha, rfl⟩ := List.mem_map.mp ht
    constructor
    · intro hm
      exact absurd hm (List.not_mem_nil x)
    · rintro ⟨s, hs, -⟩
      dsimp only [EntityManager.new] at hs
      exact absurd hs (by simp)

theorem build_entity_inv {w : World} {b : Builder} {e : Entity} {w' : World}
    (h : WorldInv w w.build_queue) (hb : w.build_entity b = Except.ok (e, w')) :
    WorldInv w' w'.build_queue := by
  unfold World.build_entity at hb
  dsimp only at hb
  obtain ⟨hem, hfresh, hid, s, hes, hsfree, hpres⟩ := EMInv.create h.em
  rw [hes] at hb
  dsimp only at hb
  cases hap : Store.applyBuilder b s w.components with
  | error err =>
    rw [hap] at hb
    exact absurd hb (by simp)
  | ok comps =>
    rw [hap] at hb
    dsimp only at hb
    cases hact : World.activate_entity
        { w with entities := (w.entities.create).2, components := comps }
        (w.entities.create).1 with
    | error err =>
      rw [hact] at hb
      exact absurd hb (by simp)
    | ok w1 =>
      rw [hact] at hb
      injection hb with hb
      rw [Prod.mk.injEq] at hb
      obtain ⟨hb1, hb2⟩ := hb
      rw [← hb2]
      have hinv_mid : WorldInv { w with entities := (w.entities.create).2 }
          (w.build_queue ++ [((w.entities.create).1, b)]) := create_inv h b
      have hinvf : WorldInv w1 (w.build_queue ++ []) :=
        buildActivate_inv w.build_queue [] hinv_mid hes hap hact
      rw [List.append_nil] at hinvf
      obtain ⟨slot, _, _, _, hbq, _, _, _⟩ := World.activate_ok hact
      have hwq : w1.build_queue = w.build_queue := hbq
      rw [hwq]
      exact hinvf

theorem reachable_inv : ∀ {w : World}, Reachable w → WorldInv w w.build_queue := by
  intro w h
  induction h with
  | init reg aspects => exact world_new_inv reg aspects
  | step_build b hre hbe ih => exact build_entity_inv ih hbe
  | step_queue_builder b hre ih =>
    rw [World.queue_builder_eq]
    exact WorldInv.congr (create_inv ih b) rfl rfl rfl
  | step_queue_modifier e m hre ih => exact WorldInv.congr ih rfl rfl rfl
  | step_queue_removal e hre ih => exact WorldInv.congr ih rfl rfl rfl
  | step_update reqs hre hu ih =>
    obtain ⟨hres, hbq, _, _⟩ := update_inv ih hu
    rw [hbq]
    exact hres

/-! ## The update pipeline as spec-side folds -/

theorem drainBuild_eq : ∀ (l : List (Entity × Builder)) (w : World),
    World.drainBuild w l = l.foldlM World.applyBuildEntry w := by
  intro l
  induction l with
  | nil => intro w; rfl
  | cons p rest ih =>
    intro w
    obtain ⟨e, b⟩ := p
    simp only [List.foldlM]
    unfold World.drainBuild World.applyBuildEntry
    dsimp only
    cases hes : w.entities.entities e with
    | none => rfl
    | some slot =>
      dsimp only
      cases hap : Store.applyBuilder b slot w.components with
      | error err => rfl
      | ok comps =>
        dsimp only
        cases hact : World.activate_entity { w with components := comps } e with
        | error err => rfl
        | ok w1 => exact ih w1

theorem drainModify_eq : ∀ (l : List (Entity × Builder)) (w : World),
    World.drainModify w l = l.foldlM World.applyModifyEntry w := by
  intro l
  induction l with
  | nil => intro w; rfl
  | cons p rest ih =>
    intro w
    obtain ⟨e, m⟩ := p
    simp only [List.foldlM]
    unfold World.drainModify World.applyModifyEntry
    dsimp only
    cases hes : w.entities.entities e with
    | none => rfl
    | some slot =>
      dsimp only
      cases hap : Store.applyBuilder m slot w.components with
      | error err => rfl
      | ok comps =>
        dsimp only
        cases hact : World.reactivate_entity { w with components := comps } e with
        | error err => rfl
        | ok w1 => exact ih w1

theorem drainRemove_eq : ∀ (l : List Entity) (w : World),
    World.drainRemove w l = l.foldl World.remove_entity w := by
  intro l
  induction l with
  | nil => intro w; rfl
  | cons e rest ih => intro w; exact ih (w.remove_entity e)

theorem update_eq_specUpdate (w : World) (reqs : List Request) :
    w.update reqs = w.specUpdate reqs := by
  have hspec : w.specUpdate reqs =
      match (w.processPhase reqs).build_queue.foldlM World.applyBuildEntry
          { w.processPhase reqs with build_queue := [] } with
      | Except.error err => Except.error err
      | Except.ok w1 =>
          match w1.modify_queue.foldlM World.applyModifyEntry
              { w1 with modify_queue := [] } with
          | Except.error err => Except.error err
          | Except.ok w2 =>
              Except.ok (w2.remove_queue.foldl World.remove_entity
                { w2 with remove_queue := [] }) := rfl
  rw [World.update_eq, hspec, ← drainBuild_eq]
  cases World.drainBuild { w.processPhase reqs with build_queue := [] }
      (w.processPhase reqs).build_queue with
  | error err => rfl
  | ok w1 =>
    dsimp only
    rw [← drainModify_eq]
    cases World.drainModify { w1 with modify_queue := [] } w1.modify_queue with
    | error err => rfl
    | ok w2 =>
      dsimp only
      rw [← drainRemove_eq]

theorem processPhase_pure : ∀ (reqs : List Request) (w : World),
    (w.processPhase reqs).components = w.components ∧
    (w.processPhase reqs).systems = w.systems := by
  intro reqs
  induction reqs with
  | nil => intro w; exact ⟨rfl, rfl⟩
  | cons r rest ih =>
    intro w
    have hstep : (w.processStep r).components = w.components ∧
        (w.processStep r).systems = w.systems := by
      cases r with
      | build b => exact ⟨rfl, rfl⟩
      | modify e m => exact ⟨rfl, rfl⟩
      | remove e => exact ⟨rfl, rfl⟩
    obtain ⟨hc, hs⟩ := ih (w.processStep r)
    exact ⟨hc.trans hstep.1, hs.trans hstep.2⟩

theorem drainBuild_queues : ∀ (l : List (Entity × Builder)) (w w' : World),
    World.drainBuild w l = Except.ok w' →
    w'.build_queue = w.build_queue ∧ w'.modify_queue = w.modify_queue ∧
    w'.remove_queue = w.remove_queue := by
  intro l
  induction l with
  | nil =>
    intro w w' h
    injection h with h
    subst h
    exact ⟨rfl, rfl, rfl⟩
  | cons p rest ih =>
    intro w w' h
    obtain ⟨e, b⟩ := p
    unfold World.drainBuild at h
    cases hes : w.entities.entities e with
    | none =>
      rw [hes] at h
      exact absurd h (by simp)
    | some slot =>
      rw [hes] at h
      dsimp only at h
      cases hap : Store.applyBuilder b slot w.components with
      | error err =>
        rw [hap] at h
        exact absurd h (by simp)
      | ok comps =>
        rw [hap] at h
        dsimp only at h
        cases hact : World.activate_entity { w with components := comps } e with
        | error err =>
          rw [hact] at h
          exact absurd h (by simp)
        | ok w1 =>
          rw [hact] at h
          obtain ⟨slot2, _, _, _, hb1, hm1, hr1, _⟩ := World.activate_ok hact
          obtain ⟨hq1, hq2, hq3⟩ := ih w1 w' h
          exact ⟨hq1.trans hb1, hq2.trans hm1, hq3.trans hr1⟩

theorem drainModify_queues : ∀ (l : List (Entity × Builder)) (w w' : World),
    World.drainModify w l = Except.ok w' →
    w'.build_queue = w.build_queue ∧ w'.modify_queue = w.modify_queue ∧
    w'.remove_queue = w.remove_queue := by
  intro l
  induction l with
  | nil =>
    intro w w' h
    injection h with h
    subst h
    exact ⟨rfl, rfl, rfl⟩
  | cons p rest ih =>
    intro w w' h
    obtain ⟨e, m⟩ := p
    unfold World.drainModify at h
    cases hes : w.entities.entities e with
    | none =>
      rw [hes] at h
      exact absurd h (by simp)
    | some slot =>
      rw [hes] at h
      dsimp only at h
      cases hap : Store.applyBuilder m slot w.components with
      | error err =>
        rw [hap] at h
        exact absurd h (by simp)
      | ok comps =>
        rw [hap] at h
        dsimp only at h
        cases hact : World.reactivate_entity { w with components := comps } e with
        | error err =>
          rw [hact] at h
          exact absurd h (by simp)
        | ok w1 =>
          rw [hact] at h
          obtain ⟨slot2, _, _, _, hb1, hm1, hr1, _⟩ := World.reactivate_ok hact
          obtain ⟨hq1, hq2, hq3⟩ := ih w1 w' h
          exact ⟨hq1.trans hb1, hq2.trans hm1, hq3.trans hr1⟩

theorem drainRemove_queues : ∀ (l : List Entity) (w : World),
    (World.drainRemove w l).build_queue = w.build_queue ∧
    (World.drainRemove w l).modify_queue = w.modify_queue ∧
    (World.drainRemove w l).remove_queue = w.remove_queue := by
  intro l
  induction l with
  | nil => intro w; exact ⟨rfl, rfl, rfl⟩
  | cons e rest ih =>
    intro w
    obtain ⟨hq1, hq2, hq3⟩ := World.remove_entity_queues w e
    obtain ⟨hr1, hr2, hr3⟩ := ih (w.remove_entity e)
    exact ⟨hr1.trans hq1, hr2.trans hq2, hr3.trans hq3⟩

theorem update_queues_empty {w : World} {reqs : List Request} {w' : World}
    (hu : w.update reqs = Except.ok w') :
    w'.build_queue = [] ∧ w'.modify_queue = [] ∧ w'.remove_queue = [] := by
  rw [World.update_eq] at hu
  cases hd1 : World.drainBuild { w.processPhase reqs with build_queue := [] }
      (w.processPhase reqs).build_queue with
  | error err =>
    rw [hd1] at hu
    exact absurd hu (by simp)
  | ok w1 =>
    rw [hd1] at hu
    dsimp only at hu
    obtain ⟨hb1, hm1, hr1⟩ := drainBuild_queues _ _ _ hd1
    have hb1' : w1.build_queue = [] := hb1
    cases hd2 : World.drainModify { w1 with modify_queue := [] } w1.modify_queue with
    | error err =>
      rw [hd2] at hu
      exact absurd hu (by simp)
    | ok w2 =>
      rw [hd2] at hu
      dsimp only at hu
      injection hu with hu
      obtain ⟨hb2, hm2, hr2⟩ := drainModify_queues _ _ _ hd2
      have hb2' : w2.build_queue = [] := by
        rw [hb2]
        exact hb1'
      have hm2' : w2.modify_queue = [] := hm2
      obtain ⟨hrb, hrm, hrr⟩ :=
        drainRemove_queues w2.remove_queue { w2 with remove_queue := [] }
      subst hu
      refine ⟨?_, ?_, ?_⟩
      · rw [hrb]
        exact hb2'
      · rw [hrm]
        exact hm2'
      · rw [hrr]

/-! ## Pending build entries across queue-only operations -/

theorem applyQOp_pending {w : World} {pend : List (Entity × Builder)} {e : Entity}
    (hinv : WorldInv w pend) (hmem : ∃ b, (e, b) ∈ pend) (op : QOp) :
    ∃ pend', WorldInv (applyQOp w op) pend' ∧ (∃ b, (e, b) ∈ pend') := by
  cases op with
  | qbuild b2 =>
    refine ⟨pend ++ [((w.entities.create).1, b2)], ?_, ?_⟩
    · unfold applyQOp
      dsimp only
      rw [World.queue_builder_eq]
      exact WorldInv.congr (create_inv hinv b2) rfl rfl rfl
    · obtain ⟨b, hb⟩ := hmem
      exact ⟨b, List.mem_append_left _ hb⟩
  | qmod e2 m2 =>
    exact ⟨pend, WorldInv.congr hinv rfl rfl rfl, hmem⟩
  | qrem e2 =>
    exact ⟨pend, WorldInv.congr hinv rfl rfl rfl, hmem⟩

theorem applyQOps_pending : ∀ (ops : List QOp) {w : World}
    {pend : List (Entity × Builder)} {e : Entity},
    WorldInv w pend → (∃ b, (e, b) ∈ pend) →
    ∃ pend', WorldInv (applyQOps w ops) pend' ∧ (∃ b, (e, b) ∈ pend') := by
  intro ops
  induction ops with
  | nil => intro w pend e hinv hmem; exact ⟨pend, hinv, hmem⟩
  | cons op rest ih =>
    intro w pend e hinv hmem
    obtain ⟨pend', hinv', hmem'⟩ := applyQOp_pending hinv hmem op
    exact ih hinv' hmem'

theorem EntityManager.create_facts (m : EntityManager) :
    (m.create).1 = m.next_id + 1 ∧ (m.create).2.next_id = m.next_id + 1 ∧
    ∃ s, (m.create).2.entities (m.create).1 = some s := by
  cases hrec : m.indices.recycled with
  | cons i rest =>
    rw [EntityManager.create_eq_cons hrec]
    exact ⟨rfl, rfl, i, by simp⟩
  | nil =>
    rw [EntityManager.create_eq_nil hrec]
    exact ⟨rfl, rfl, m.indices.next_index, by simp⟩

/-! ## Claim theorems -/

/-- Claim C2: for every aspect and entity, `Aspect::check` returns true iff
(`all` is empty OR every id in `all` is present) AND (no id in `none` is
present) AND (`any` is empty OR at least one id in `any` is present); in
particular the empty aspect `Aspect::nil` matches every entity.  The
entity's component signature is the oracle `has`. -/
theorem claim_C2_aspect_check (a : Aspect) (has : ComponentId → Bool) :
    (a.check has = true ↔
      ((a.all = [] ∨ ∀ c ∈ a.all, has c = true) ∧
       (∀ c ∈ a.none, ¬ has c = true) ∧
       (a.any = [] ∨ ∃ c ∈ a.any, has c = true))) ∧
    Aspect.nil.check has = true := by
  constructor
  · unfold Aspect.check
    simp only [Bool.and_eq_true, Bool.or_eq_true, Bool.not_eq_true',
      List.isEmpty_iff, List.all_eq_true, List.any_eq_true, Bool.not_eq_true,
      List.any_eq_false]
    constructor
    · rintro ⟨⟨h1, h2⟩, h3⟩
      exact ⟨h1, fun c hc => by simpa using h2 c hc, by simpa using h3⟩
    · rintro ⟨h1, h2, h3⟩
      exact ⟨⟨h1, fun c hc => by simpa using h2 c hc⟩, by simpa using h3⟩
  · rfl

/-- Claim C5: from any entity-manager state, create then remove then create
again yields a second entity whose slot index equals the first entity's
index, whose unique id differs from the first entity's (the `Entity` value
is its `u64` id), and after the remove `is_valid` on the first entity is
false. -/
theorem claim_C5_index_reuse (m : EntityManager) :
    ((m.create.2.remove m.create.1).create.2.indexOf
        (m.create.2.remove m.create.1).create.1
      = m.create.2.indexOf m.create.1) ∧
    (m.create.2.remove m.create.1).create.1 ≠ m.create.1 ∧
    (m.create.2.remove m.create.1).is_valid m.create.1 = false := by
  cases hrec : m.indices.recycled with
  | cons i rest =>
    rw [EntityManager.create_eq_cons hrec]
    have he1 : (EntityManager.mk
        (IndexPool.mk rest m.indices.next_index)
        (fun x => if x = m.next_id + 1 then some i else m.entities x)
        (m.next_id + 1)).entities (m.next_id + 1) = some i := by simp
    rw [EntityManager.remove_eq he1]
    rw [EntityManager.create_eq_cons (by simp : (EntityManager.mk
        (IndexPool.mk (i :: rest) m.indices.next_index)
        (fun x => if x = m.next_id + 1 then Option.none
          else if x = m.next_id + 1 then some i else m.entities x)
        (m.next_id + 1)).indices.recycled = i :: rest)]
    refine ⟨?_, ?_, ?_⟩
    · simp [EntityManager.indexOf]
    · simp
    · simp [EntityManager.is_valid]
  | nil =>
    rw [EntityManager.create_eq_nil hrec]
    have he1 : (EntityManager.mk
        (IndexPool.mk [] (m.indices.next_index + 1))
        (fun x => if x = m.next_id + 1 then some m.indices.next_index
          else m.entities x)
        (m.next_id + 1)).entities (m.next_id + 1) = some m.indices.next_index := by
      simp
    rw [EntityManager.remove_eq he1]
    rw [EntityManager.create_eq_cons (by simp : (EntityManager.mk
        (IndexPool.mk [m.indices.next_index] (m.indices.next_index + 1))
        (fun x => if x = m.next_id + 1 then Option.none
          else if x = m.next_id + 1 then some m.indices.next_index
            else m.entities x)
        (m.next_id + 1)).indices.recycled = [m.indices.next_index])]
    refine ⟨?_, ?_, ?_⟩
    · simp [EntityManager.indexOf]
    · simp
    · simp [EntityManager.is_valid]

/-- Claim C6: when a reactivation notification is delivered for an entity
currently in `interested` whose aspect no longer holds, a tracker whose
inner process keeps the default `on_reactivated` observes exactly one
`on_deactivated` call and zero `on_activated` calls (the tracker calls the
inner `deactivated` hook directly, so the default expansion contains
exactly that one call), and the entity is removed from `interested`. -/
theorem claim_C6_reactivation_default (s : EntitySystem) (e : Entity)
    (has : Entity → ComponentId → Bool)
    (hmem : e ∈ s.interested) (hfail : s.aspect.check (has e) = false) :
    expandDefault (s.reactivated e has).2 = [Hook.deactivated e] ∧
    e ∉ (s.reactivated e has).1.interested ∧
    (s.reactivated e has).2.count (Hook.deactivated e) = 1 ∧
    (s.reactivated e has).2.count (Hook.activated e) = 0 := by
  unfold EntitySystem.reactivated EntitySystem.reactivatedWith
  rw [hfail]
  rw [if_pos hmem]
  refine ⟨rfl, ?_, ?_, ?_⟩
  · simp [mem_removeE]
  · simp [List.count_cons]
  · simp [List.count_cons]

/-- Claim C6 witness: the theorem at the concrete tracker with interested
set `[7]`, aspect requiring component 3, and an entity signature with no
components. -/
theorem claim_C6_witness :
    expandDefault ((EntitySystem.mk [7] (Aspect.for_all [3])).reactivated 7
        (fun _ _ => false)).2 = [Hook.deactivated 7] ∧
    7 ∉ ((EntitySystem.mk [7] (Aspect.for_all [3])).reactivated 7
        (fun _ _ => false)).1.interested := by
  have h := claim_C6_reactivation_default (EntitySystem.mk [7] (Aspect.for_all [3]))
    7 (fun _ _ => false) (by decide) (by decide)
  exact ⟨h.1, h.2.1⟩

/-- Claim C7 counterexample: delivering `activated` for entity 4, which is
already in the tracker's interested set, with the nil aspect (which holds),
is not a no-op for the inner system: the tracker re-fires the inner
`on_activated` hook (the hook list is `[activated 4]`, not `[]` as the
claim requires), though the interested set is unchanged. -/
theorem claim_C7_counterexample :
    (4 : Entity) ∈ ([4] : List Entity) ∧
    (EntitySystem.mk [4] Aspect.nil).activated 4 (fun _ _ => false)
      = (EntitySystem.mk [4] Aspect.nil, [Hook.activated 4]) ∧
    ((EntitySystem.mk [4] Aspect.nil).activated 4 (fun _ _ => false)).2 ≠ [] := by
  refine ⟨by decide, ?_, by decide⟩
  decide

/-- Claim C7 (amended): when an activation notification is delivered for an
entity already in the tracker's interested set, the interested set is left
unchanged, but the inner system's `on_activated` hook is called again
whenever the aspect holds; the notification is a complete no-op only when
the aspect does not hold. -/
theorem claim_C7_already_interested (s : EntitySystem) (e : Entity)
    (has : Entity → ComponentId → Bool) (hmem : e ∈ s.interested) :
    (s.activated e has).1.interested = s.interested ∧
    (s.activated e has).2 =
      (if s.aspect.check (has e) then [Hook.activated e] else []) := by
  unfold EntitySystem.activated EntitySystem.activatedWith
  cases hc : s.aspect.check (has e) <;> simp [insertE, hmem]

/-- Claim C7 witness: the amended theorem at the concrete tracker with
interested set `[4]` and the nil aspect. -/
theorem claim_C7_witness :
    ((EntitySystem.mk [4] Aspect.nil).activated 4 (fun _ _ => false)).1.interested
      = [4] ∧
    ((EntitySystem.mk [4] Aspect.nil).activated 4 (fun _ _ => false)).2
      = [Hook.activated 4] := by
  have h := claim_C7_already_interested (EntitySystem.mk [4] Aspect.nil) 4
    (fun _ _ => false) (by decide)
  refine ⟨h.1, ?_⟩
  rw [h.2]
  decide

/-- Claim C8 counterexample: delivering a deactivation for entity 5, which
is not in the (empty) interested set, completes silently as a no-op - the
source of `EntitySystem::deactivated` has no failure path at all - with the
state unchanged and no inner hook fired, contradicting the claimed loud
failure. -/
theorem claim_C8_counterexample :
    (5 : Entity) ∉ ([] : List Entity) ∧
    (EntitySystem.mk [] Aspect.nil).deactivatedT 5
      = (EntitySystem.mk [] Aspect.nil, []) := by
  refine ⟨by decide, ?_⟩
  decide

/-- Claim C8 (amended): a deactivation for an entity not in the interested
set is silently ignored (state unchanged, no hook, no failure), and a
repeated activation is likewise not flagged as an error: the interested
set is unchanged (the inner `on_activated` hook simply fires again when
the aspect holds). -/
theorem claim_C8_double_notifications (s : EntitySystem) (e : Entity) :
    (e ∉ s.interested → s.deactivatedT e = (s, [])) ∧
    (∀ has : Entity → ComponentId → Bool, e ∈ s.interested →
      (s.activated e has).1.interested = s.interested) := by
  constructor
  · intro h
    unfold EntitySystem.deactivatedT
    rw [if_neg h]
  · intro has h
    unfold EntitySystem.activated EntitySystem.activatedWith
    cases hc : s.aspect.check (has e) <;> simp [insertE, h]

/-- Claim C8 witness: the amended theorem at a concrete empty tracker (for
double deactivation) and at a tracker already containing entity 9 (for
double activation). -/
theorem claim_C8_witness :
    (EntitySystem.mk [] Aspect.nil).deactivatedT 5
      = (EntitySystem.mk [] Aspect.nil, []) ∧
    ((EntitySystem.mk [9] Aspect.nil).activated 9 (fun _ _ => false)).1.interested
      = [9] := by
  exact ⟨(claim_C8_double_notifications (EntitySystem.mk [] Aspect.nil) 5).1
      (by decide),
    (claim_C8_double_notifications (EntitySystem.mk [9] Aspect.nil) 9).2
      (fun _ _ => false) (by decide)⟩

/-- Claim C9 counterexample: a buffer of stride 1 written with type
`(tid 0, size 1)` and value byte `[5]`; reading index 0 with the different
type `(tid 1, size 1)` does not fail - the stride check only compares
sizes - and hands back the stored byte `[5]`, silently reinterpreting the
first type's representation as the second type. -/
theorem claim_C9_counterexample :
    RustType.mk 1 1 ≠ RustType.mk 0 1 ∧
    (Buffer.new 1).set (RustType.mk 0 1) 0 [5] = Except.ok (Buffer.mk [5] 1) ∧
    (Buffer.mk [5] 1).get (RustType.mk 1 1) 0 = Except.ok (some [5]) ∧
    ¬ isError ((Buffer.mk [5] 1).get (RustType.mk 1 1) 0) := by
  refine ⟨by decide, ?_, rfl, by decide⟩
  unfold Buffer.set
  rw [if_neg (by decide : ¬ (RustType.mk 0 1).size ≠ (Buffer.new 1).stride)]
  have hg : Buffer.growLoop (Buffer.new 1).bytes (Buffer.new 1).stride
      ((Buffer.new 1).stride * 0 + (Buffer.new 1).stride) = [0] := by
    rw [Buffer.growLoop]
    rw [dif_pos (by decide)]
    rw [Buffer.growLoop]
    rw [dif_neg (by decide)]
    rfl
  dsimp only
  rw [hg]
  rfl

/-- Claim C9 (amended): every access to the type-erased buffer (`set`,
`get`, `borrow`, `borrow_mut`) fails iff the requested type's size differs
from the buffer's stride; a wrong type of the same size is not detected
(the stored bytes are returned for the caller to transmute). -/
theorem claim_C9_size_check_only (b : Buffer) (t : RustType) (i : Nat)
    (val : List Nat) :
    (isError (b.set t i val) ↔ t.size ≠ b.stride) ∧
    (isError (b.get t i) ↔ t.size ≠ b.stride) ∧
    (isError (b.borrow t i) ↔ t.size ≠ b.stride) ∧
    (isError (b.borrow_mut t i) ↔ t.size ≠ b.stride) := by
  by_cases h : t.size = b.stride
  · have hne : ¬ t.size ≠ b.stride := fun hc => hc h
    refine ⟨?_, ?_, ?_, ?_⟩
    · unfold Buffer.set
      rw [if_neg hne]
      simp [isError, h]
    · unfold Buffer.get
      rw [if_neg hne]
      dsimp only
      split <;> simp [isError, h]
    · unfold Buffer.borrow
      rw [if_neg hne]
      dsimp only
      split <;> simp [isError, h]
    · unfold Buffer.borrow_mut
      rw [if_neg hne]
      dsimp only
      split <;> simp [isError, h]
  · refine ⟨?_, ?_, ?_, ?_⟩
    · unfold Buffer.set
      rw [if_pos h]
      simp [isError, h]
    · unfold Buffer.get
      rw [if_pos h]
      simp [isError, h]
    · unfold Buffer.borrow
      rw [if_pos h]
      simp [isError, h]
    · unfold Buffer.borrow_mut
      rw [if_pos h]
      simp [isError, h]

/-- Claim C1: after every `World::update` call that completes, every
registered tracker's cached `interested` set contains exactly the entities
that are valid in the entity manager and whose aspect check evaluates to
true against the current component storages, for every world reachable by
`build_entity` / `queue_builder` / `queue_modifier` / `queue_removal` /
`update`. -/
theorem claim_C1_interest_set_consistency {w : World} {reqs : List Request}
    {w' : World} (hre : Reachable w) (hu : w.update reqs = Except.ok w') :
    ∀ t ∈ w'.systems, ∀ e : Entity,
      e ∈ t.interested ↔
        (w'.is_valid e = true ∧
         ∃ s, w'.entities.entities e = some s ∧
           checkAspectAt w'.components t.aspect s = Except.ok true) := by
  obtain ⟨hinv, -, -, -⟩ := update_inv (reachable_inv hre) hu
  intro t ht e
  rw [hinv.sync t ht e (by simp)]
  constructor
  · rintro ⟨s, hs, hchk⟩
    refine ⟨?_, s, hs, hchk⟩
    unfold World.is_valid EntityManager.is_valid
    rw [hs]
    rfl
  · rintro ⟨-, s, hs, hchk⟩
    exact ⟨s, hs, hchk⟩

/-- Claim C1 witness: one update of a fresh world holding a single
nil-aspect tracker, with one build request enqueued during the process
step; the built entity 1 is valid, matches, and is in the tracker's
interested set. -/
theorem claim_C1_witness :
    ∃ w', World.update (World.new (fun _ => false) [Aspect.nil])
        [Request.build []] = Except.ok w' ∧
      ∀ t ∈ w'.systems, (1 : Entity) ∈ t.interested := by
  have hrun : World.update (World.new (fun _ => false) [Aspect.nil])
      [Request.build []]
      = Except.ok (World.mk [] [] []
          (EntityManager.mk (IndexPool.mk [] 1)
            (fun x => if x = 1 then some 0 else Option.none) 1)
          (fun _ => Option.none)
          [EntitySystem.mk [1] Aspect.nil]) := rfl
  refine ⟨_, hrun, ?_⟩
  intro t ht
  rcases List.mem_singleton.mp ht with rfl
  exact (claim_C1_interest_set_consistency (Reachable.init (fun _ => false)
    [Aspect.nil]) hrun (EntitySystem.mk [1] Aspect.nil)
    (List.mem_singleton_self _) 1).mpr ⟨rfl, 0, rfl, rfl⟩

/-- Claim C3: one `World::update` runs its phases in the fixed order: the
process step first, whose only effect on the world is the requests it
enqueues (component storages and tracker states are untouched, so a system
never observes its own requests as applied); then the build queue is
swapped out and drained as a FIFO left fold, each entry running its
builder and then notifying every tracker (activation); then the modify
queue likewise (reactivation); then the remove queue; and when the update
completes all three queues are empty.  Formally: `update` equals the
spec-shaped pipeline `specUpdate` of FIFO folds, the process phase
preserves storages and trackers, and a completed update leaves all queues
empty. -/
theorem claim_C3_update_ordering :
    (∀ (w : World) (reqs : List Request), w.update reqs = w.specUpdate reqs) ∧
    (∀ (w : World) (reqs : List Request),
      (w.processPhase reqs).components = w.components ∧
      (w.processPhase reqs).systems = w.systems) ∧
    (∀ (w : World) (reqs : List Request) (w' : World),
      w.update reqs = Except.ok w' →
      w'.build_queue = [] ∧ w'.modify_queue = [] ∧ w'.remove_queue = []) :=
  ⟨update_eq_specUpdate, fun w reqs => processPhase_pure reqs w,
   fun _ _ _ hu => update_queues_empty hu⟩

/-- Claim C3 witness: the queue-emptiness conjunct applied to a concrete
completed update on a fresh world. -/
theorem claim_C3_witness :
    World.update (World.new (fun _ => false) []) []
      = World.specUpdate (World.new (fun _ => false) []) [] ∧
    ∃ w', World.update (World.new (fun _ => false) []) [] = Except.ok w' ∧
      w'.build_queue = [] ∧ w'.modify_queue = [] ∧ w'.remove_queue = [] :=
  ⟨claim_C3_update_ordering.1 (World.new (fun _ => false) []) [],
   ⟨World.mk [] [] [] EntityManager.new (fun _ => Option.none) [], rfl,
    claim_C3_update_ordering.2.2 (World.new (fun _ => false) []) []
      (World.mk [] [] [] EntityManager.new (fun _ => Option.none) []) rfl⟩⟩

/-- Claim C10: the entity returned by `World::queue_builder` is valid the
moment `queue_builder` returns - before any `update` has applied its
builder - and until the build entry is applied (i.e. across any further
sequence of queue-only operations) the entity exists with no components
attached in any storage. -/
theorem claim_C10_queue_builder_validity {w : World} (hre : Reachable w)
    (b : Builder) (ops : List QOp) :
    (applyQOps (w.queue_builder b).2 ops).is_valid (w.queue_builder b).1 = true ∧
    (∀ s, (applyQOps (w.queue_builder b).2 ops).entities.entities
        (w.queue_builder b).1 = some s →
      ∀ cid f, (applyQOps (w.queue_builder b).2 ops).components cid = some f →
        f s = Option.none) := by
  have hinv0 : WorldInv (w.queue_builder b).2
      (w.build_queue ++ [((w.entities.create).1, b)]) := by
    rw [World.queue_builder_eq]
    exact WorldInv.congr (create_inv (reachable_inv hre) b) rfl rfl rfl
  have he1 : (w.queue_builder b).1 = (w.entities.create).1 := by
    rw [World.queue_builder_eq]
  have hmem : ∃ b0, (((w.queue_builder b).1 : Entity), b0)
      ∈ w.build_queue ++ [((w.entities.create).1, b)] :=
    ⟨b, by rw [he1]; exact List.mem_append_right _ (List.mem_singleton_self _)⟩
  obtain ⟨pend', hinv', hb'⟩ := applyQOps_pending ops hinv0 hmem
  obtain ⟨b', hb'⟩ := hb'
  constructor
  · exact hinv'.pend_valid ((w.queue_builder b).1, b') hb'
  · intro s hs cid f hcf
    exact hinv'.pend_empty ((w.queue_builder b).1, b') hb' s hs cid f hcf

/-- Claim C10 witness: the theorem at a fresh world, the empty builder and
no further queue operations. -/
theorem claim_C10_witness :
    (applyQOps ((World.new (fun _ => false) []).queue_builder []).2 []).is_valid
      ((World.new (fun _ => false) []).queue_builder []).1 = true :=
  (claim_C10_queue_builder_validity (Reachable.init (fun _ => false) []) [] []).1

/-- Claim C4: in the create-A / add-component-X / remove-A / create-B
scenario, B reuses A's slot index and does not have component X: after
`World::remove_entity` every storage entry at A's slot is purged (so the
purge happens before the slot can be reassigned), the existence check for
X on B is false, and the non-trusted get returns absent; also B is a
different entity value from A. -/
theorem claim_C4_storage_purge {w : World} (X : ComponentId) (v : Value)
    {a : Entity} {w1 : World}
    (hb1 : w.build_entity [BuildCmd.addc X v] = Except.ok (a, w1))
    {bE : Entity} {w3 : World}
    (hb2 : (w1.remove_entity a).build_entity [] = Except.ok (bE, w3)) :
    ∃ s, w1.entities.entities a = some s ∧
      (∀ cid f, (w1.remove_entity a).components cid = some f →
        f s = Option.none) ∧
      w3.entities.entities bE = some s ∧
      w3.has_component bE X = Except.ok false ∧
      w3.try_component bE X = Except.ok Option.none ∧
      bE ≠ a := by
  obtain ⟨ha_id, hnid1, s0, hes0⟩ := EntityManager.create_facts w.entities
  -- dissect the first build
  unfold World.build_entity at hb1
  dsimp only at hb1
  rw [hes0] at hb1
  dsimp only at hb1
  cases hap1 : Store.applyBuilder [BuildCmd.addc X v] s0 w.components with
  | error err =>
    rw [hap1] at hb1
    exact absurd hb1 (by simp)
  | ok comps1 =>
    rw [hap1] at hb1
    dsimp only at hb1
    cases hact1 : World.activate_entity
        { w with entities := (w.entities.create).2, components := comps1 }
        (w.entities.create).1 with
    | error err =>
      rw [hact1] at hb1
      exact absurd hb1 (by simp)
    | ok w1x =>
      rw [hact1] at hb1
      injection hb1 with hb1
      rw [Prod.mk.injEq] at hb1
      obtain ⟨hb1a, hb1w⟩ := hb1
      obtain ⟨slot1, _, hent1, hcmp1, _, _, _, _⟩ := World.activate_ok hact1
      dsimp only at hent1 hcmp1
      -- the registered storage for X before the build
      have hcx : ∃ g0, w.components X = some g0 ∧
          comps1 = fun c => if c = X then
            some (fun sl => if sl = s0 then some v else g0 sl)
          else w.components c := by
        cases hcg : w.components X with
        | none =>
          simp only [Store.applyBuilder, Store.applyCmd, hcg] at hap1
          exact absurd hap1 (by simp)
        | some g0 =>
          simp only [Store.applyBuilder, Store.applyCmd, hcg,
            Except.ok.injEq] at hap1
          exact ⟨g0, rfl, hap1.symm⟩
      obtain ⟨g0, hg0, hcomps1⟩ := hcx
      -- facts about w1
      have hw1e : w1.entities = (w.entities.create).2 := by rw [← hb1w]; exact hent1
      have hw1c : w1.components = comps1 := by rw [← hb1w]; exact hcmp1
      have hes1 : w1.entities.entities a = some s0 := by
        rw [hw1e, ← hb1a]
        exact hes0
      -- the removal
      have hrm : w1.remove_entity a =
          { w1 with
            systems := w1.systems.map (fun t => (t.deactivatedT a).1)
            components := w1.components.purgeSlot s0
            entities := w1.entities.remove a } := by
        unfold World.remove_entity
        rw [hes1]
      -- recycled list after the removal
      have hrec2 : (w1.remove_entity a).entities.indices.recycled
          = s0 :: w1.entities.indices.recycled := by
        rw [hrm]
        dsimp only
        rw [EntityManager.remove_eq hes1]
      -- dissect the second build
      obtain ⟨hb_id, hnid2, s2, hes2⟩ :=
        EntityManager.create_facts (w1.remove_entity a).entities
      have hs2 : s2 = s0 := by
        have hc2 := EntityManager.create_eq_cons hrec2
        rw [hc2] at hes2
        simp at hes2
        exact hes2.symm
      subst hs2
      unfold World.build_entity at hb2
      dsimp only at hb2
      rw [hes2] at hb2
      dsimp only at hb2
      have hap2 : Store.applyBuilder [] s2 (w1.remove_entity a).components
          = Except.ok (w1.remove_entity a).components := rfl
      rw [hap2] at hb2
      dsimp only at hb2
      cases hact2 : World.activate_entity
          { w1.remove_entity a with
            entities := ((w1.remove_entity a).entities.create).2
            components := (w1.remove_entity a).components }
          ((w1.remove_entity a).entities.create).1 with
      | error err =>
        rw [hact2] at hb2
        exact absurd hb2 (by simp)
      | ok w3x =>
        rw [hact2] at hb2
        injection hb2 with hb2
        rw [Prod.mk.injEq] at hb2
        obtain ⟨hb2a, hb2w⟩ := hb2
        obtain ⟨slot2, _, hent2, hcmp2, _, _, _, _⟩ := World.activate_ok hact2
        dsimp only at hent2 hcmp2
        have hw3e : w3.entities = ((w1.remove_entity a).entities.create).2 := by
          rw [← hb2w]; exact hent2
        have hw3c : w3.components = (w1.remove_entity a).components := by
          rw [← hb2w]; exact hcmp2
        have hes3 : w3.entities.entities bE = some s2 := by
          rw [hw3e, ← hb2a]
          exact hes2
        -- storage state at the reused slot
        have hw2X : (w1.remove_entity a).components X
            = some (fun sl => if sl = s2 then Option.none
                else if sl = s2 then some v else g0 sl) := by
          rw [hrm]
          dsimp only
          rw [hw1c, hcomps1]
          unfold Store.purgeSlot
          simp
        refine ⟨s2, hes1, ?_, hes3, ?_, ?_, ?_⟩
        · intro cid f hcf
          rw [hrm] at hcf
          dsimp only at hcf
          exact Store.purgeSlot_at hcf
        · unfold World.has_component
          rw [hw3c, hw2X, hes3]
          simp
        · unfold World.try_component
          rw [hes3, hw3c, hw2X]
          simp
        · rw [← hb2a, hb_id, hrm]
          dsimp only
          rw [EntityManager.remove_eq hes1]
          dsimp only
          rw [hw1e, hnid1, ← hb1a, ha_id]
          intro hcon
          exact Nat.succ_ne_self w.entities.next_id (Nat.succ_injective hcon)

/-- Claim C4 witness: the concrete run on a fresh world with component 0
registered: build A = entity 1 with component 0 = 5, remove A, build
B = entity 2 with no components; B reuses slot 0 and lacks component 0. -/
theorem claim_C4_witness :
    ∃ a w1 bE w3,
      (World.new (fun _ => true) []).build_entity [BuildCmd.addc 0 5]
        = Except.ok (a, w1) ∧
      (w1.remove_entity a).build_entity [] = Except.ok (bE, w3) ∧
      ∃ s, w1.entities.entities a = some s ∧
        w3.entities.entities bE = some s ∧
        w3.has_component bE 0 = Except.ok false ∧
        w3.try_component bE 0 = Except.ok Option.none ∧
        bE ≠ a := by
  have h1 : (World.new (fun _ => true) []).build_entity [BuildCmd.addc 0 5]
      = Except.ok (1, World.mk [] [] []
          (EntityManager.mk (IndexPool.mk [] 1)
            (fun x => if x = 1 then some 0 else Option.none) 1)
          (fun c => if c = 0 then
              some (fun sl => if sl = 0 then some 5 else Option.none)
            else some (fun _ => Option.none))
          []) := rfl
  have h2 : ((World.mk [] [] []
        (EntityManager.mk (IndexPool.mk [] 1)
          (fun x => if x = 1 then some 0 else Option.none) 1)
        (fun c => if c = 0 then
            some (fun sl => if sl = 0 then some 5 else Option.none)
          else some (fun _ => Option.none))
        ([] : List EntitySystem)).remove_entity 1).build_entity []
      = Except.ok (2, World.mk [] [] []
          (EntityManager.mk (IndexPool.mk [] 1)
            (fun x => if x = 2 then some 0
              else if x = 1 then Option.none
              else if x = 1 then some 0 else Option.none) 2)
          (Store.purgeSlot (fun c => if c = 0 then
              some (fun sl => if sl = 0 then some 5 else Option.none)
            else some (fun _ => Option.none)) 0)
          []) := rfl
  obtain ⟨s, hsa, hpurge, hsb, hhas, htry, hne⟩ :=
    claim_C4_storage_purge 0 5 h1 h2
  exact ⟨1, _, 2, _, h1, h2, s, hsa, hsb, hhas, htry, hne⟩

end Ecs
